import Mathlib

/-!
Verification development for the Xenobot design-lab simulation core
(src/src/App.svelte).  The solver state is embedded shallowly: 3D points
become exact rational triples, the per-frame relaxation loop becomes a
fuel-indexed recursion (the fuel bound is justified below), and the two
float comparisons that involve a square root (the adjacency tolerance test
and the correction-pass deviation test) are encoded exactly by comparing
squared distances, which agrees with the real-valued comparison because
both sides are nonnegative.
-/

namespace Xenobot

/-- Rational 3D vector mirroring THREE.Vector3 as used by the solver. -/
structure Vec3 where
  x : ℚ
  y : ℚ
  z : ℚ
deriving DecidableEq, Repr

def vadd (a b : Vec3) : Vec3 := ⟨a.x + b.x, a.y + b.y, a.z + b.z⟩

def smul (q : ℚ) (v : Vec3) : Vec3 := ⟨q * v.x, q * v.y, q * v.z⟩

def vneg (v : Vec3) : Vec3 := ⟨-v.x, -v.y, -v.z⟩

/-- Squared euclidean distance; `distanceTo` in the source is its square root. -/
def distSq (a b : Vec3) : ℚ :=
  (b.x - a.x)^2 + (b.y - a.y)^2 + (b.z - a.z)^2

/-- `const cellSize = 0.2` (App.svelte line 101). -/
def cellSize : ℚ := 1/5

/-- `const tolerance = 0.01` (App.svelte line 102). -/
def tolerance : ℚ := 1/100

/-- One placed cell: `uuid`, `userData.cellType`, mutable `position` and the
uniform `scale` (the source sets all three axes to the same value and only
ever reads `scale.x`). -/
structure CellRec where
  uuid : ℕ
  cellType : String
  pos : Vec3
  scl : ℚ
deriving DecidableEq, Repr

/-- The six axis-aligned `faceDirections` (App.svelte lines 104-108). -/
def faceDirections : List Vec3 :=
  [⟨1,0,0⟩, ⟨-1,0,0⟩, ⟨0,1,0⟩, ⟨0,-1,0⟩, ⟨0,0,1⟩, ⟨0,0,-1⟩]

/-- One entry of a `faceConnections` list: the neighbour id and the face
direction.  The source also caches the neighbour object itself; under unique
uuids dereferencing that object is the same as looking the id up in the
current cell list, which is how every use below reads it. -/
structure Conn where
  cellId : ℕ
  direction : Vec3
deriving DecidableEq, Repr

/-- Adjacency list built for one cell (the inner double loop of
App.svelte lines 112-128): for every other cell and every face direction,
record an edge when the neighbour rest position is within `tolerance` of
`pos1 + dir * cellSize`.  `expectedPos.distanceTo(pos2) < tolerance` is
encoded as `distSq < tolerance^2`. -/
def connsFor (cells : List CellRec) (c1 : CellRec) : List Conn :=
  cells.flatMap fun c2 =>
    if c1.uuid = c2.uuid then []
    else
      faceDirections.filterMap fun d =>
        if distSq (vadd c1.pos (smul cellSize d)) c2.pos < tolerance^2 then
          some ⟨c2.uuid, d⟩
        else none

/-- The `faceConnections` map (App.svelte lines 100-128), keyed by uuid.
It is built once at simulation entry, from the positions the cells have at
that moment (the snapshot values). -/
def buildConnections (cells : List CellRec) : List (ℕ × List Conn) :=
  cells.map fun c => (c.uuid, connsFor cells c)

/-- `faceConnections.get(uuid) || []`. -/
def getConns (fc : List (ℕ × List Conn)) (u : ℕ) : List Conn :=
  match fc.find? (fun p => p.1 = u) with
  | some p => p.2
  | none => []

/-- `allCells.find(b => b.uuid === id)`. -/
def findCell (cells : List CellRec) (u : ℕ) : Option CellRec :=
  cells.find? (fun c => c.uuid = u)

/-- Current position of the cell with uuid `u`, if present. -/
def posOf (cells : List CellRec) (u : ℕ) : Option Vec3 :=
  (findCell cells u).map CellRec.pos

/-- Cell type of the cell with uuid `u`, if present. -/
def typeOf (cells : List CellRec) (u : ℕ) : Option String :=
  (findCell cells u).map CellRec.cellType

/-- Assigning `cell.position` through the object reference: every record
with that uuid (exactly one, under the nodup invariant) gets the new
position. -/
def updateCell (cells : List CellRec) (u : ℕ) (p : Vec3) : List CellRec :=
  cells.map fun c => if c.uuid = u then { c with pos := p } else c

/-- `position.y = Math.max(cellSize / 2, position.y)` (the floor clamp). -/
def clampY (v : Vec3) : Vec3 := ⟨v.x, max (cellSize/2) v.y, v.z⟩

/-- Boolean test for `sqrt D > q` given `0 ≤ D`, using only rational
arithmetic: true iff `q < 0` or `q^2 < D`. -/
def sqrtGtB (D q : ℚ) : Bool := decide (q < 0) || decide (q^2 < D)

/-- Boolean test for `sqrt D < q` given `0 ≤ D`: true iff `0 < q` and
`D < q^2`. -/
def sqrtLtB (D q : ℚ) : Bool := decide (0 < q) && decide (D < q^2)

/-- `Math.abs(actualDistance - expectedDistance) > 0.001` where
`actualDistance = sqrt D`: exact encoding of the correction-pass deviation
test (App.svelte line 274). -/
def deviatesB (D e : ℚ) : Bool := sqrtGtB D (e + 1/1000) || sqrtLtB D (e - 1/1000)

/-- The anchor selector (App.svelte lines 149-159): all `reference` cells if
any exist, otherwise the cells whose snapshot rest y-coordinate is within
`tolerance` of `cellSize / 2`. -/
def anchorCellsOf (rest : ℕ → Vec3) (cells : List CellRec) : List CellRec :=
  let referenceBlocks := cells.filter fun c => c.cellType = "reference"
  if referenceBlocks.length > 0 then referenceBlocks
  else cells.filter fun c => |(rest c.uuid).y - cellSize/2| < tolerance

/-- Body of the connection loop shared by the anchored BFS (lines 179-196)
and the disconnected-component sweep (lines 221-238): skip a missing,
already processed or `reference` neighbour; otherwise place the neighbour at
`currentCell.position + dir * (cellSize/2*scale1 + cellSize/2*scale2)`,
clamp its y to the floor, mark it processed and enqueue it.  The state is
`(cells, processed, newlyQueued)`; the current cell is re-read from the
state, matching the object-reference reads of the source. -/
def visitOneConnection (u : ℕ) (st : List CellRec × List ℕ × List ℕ) (conn : Conn) :
    List CellRec × List ℕ × List ℕ :=
  match st with
  | (cells, pr, nq) =>
    match findCell cells conn.cellId, findCell cells u with
    | some nb, some cur =>
      if conn.cellId ∈ pr ∨ nb.cellType = "reference" then (cells, pr, nq)
      else
        let adjusted := cellSize/2 * cur.scl + cellSize/2 * nb.scl
        let p := clampY (vadd cur.pos (smul adjusted conn.direction))
        (updateCell cells conn.cellId p, conn.cellId :: pr, nq ++ [conn.cellId])
    | _, _ => (cells, pr, nq)

/-- The anchored BFS while-loop (App.svelte lines 163-197), with an explicit
fuel.  Every enqueue is of a uuid that was not yet processed and is marked
processed at the same time, and processed uuids are never enqueued again, so
the total number of dequeues is at most the initial queue length plus the
number of distinct cell uuids; the callers pass fuel larger than that, so
the recursion never runs dry on states the program reaches. -/
def bfsLoop (fc : List (ℕ × List Conn)) (rest : ℕ → Vec3) (iteration : ℕ) :
    ℕ → List CellRec → List ℕ → List ℕ → List CellRec × List ℕ
  | 0, cells, pr, _ => (cells, pr)
  | _ + 1, cells, pr, [] => (cells, pr)
  | fuel + 1, cells, pr, u :: q =>
    match findCell cells u with
    | none => bfsLoop fc rest iteration fuel cells pr q
    | some cur =>
      if cur.cellType = "reference" ∧ iteration ≠ 0 then
        bfsLoop fc rest iteration fuel cells pr q
      else
        let cells1 :=
          if cur.cellType = "reference" ∧ iteration = 0 then updateCell cells u (rest u)
          else cells
        let r := (getConns fc u).foldl (visitOneConnection u) (cells1, pr, [])
        bfsLoop fc rest iteration fuel r.1 r.2.1 (q ++ r.2.2)

/-- Phase 1 of a relaxation pass: recompute anchors, mark them processed,
seed the queue with them and run the BFS (App.svelte lines 147-197). -/
def bfsPhase (fc : List (ℕ × List Conn)) (rest : ℕ → Vec3) (iteration : ℕ)
    (cells : List CellRec) : List CellRec × List ℕ :=
  let anchors := anchorCellsOf rest cells
  bfsLoop fc rest iteration (2 * cells.length + 1) cells
    (anchors.map (·.uuid)) (anchors.map (·.uuid))

/-- Inner while-loop of the disconnected-component sweep (App.svelte lines
212-239): dequeue, splice the dequeued cell out of the `unprocessed` array,
then run the shared connection loop. -/
def sweepInner (fc : List (ℕ × List Conn)) :
    ℕ → List CellRec → List ℕ → List CellRec → List ℕ →
    List CellRec × List ℕ × List CellRec
  | 0, cells, pr, unp, _ => (cells, pr, unp)
  | _ + 1, cells, pr, unp, [] => (cells, pr, unp)
  | fuel + 1, cells, pr, unp, u :: q =>
    match findCell cells u with
    | none => sweepInner fc fuel cells pr unp q
    | some _ =>
      let unp1 := unp.eraseP fun c => c.uuid = u
      let r := (getConns fc u).foldl (visitOneConnection u) (cells, pr, [])
      sweepInner fc fuel r.1 r.2.1 unp1 (q ++ r.2.2)

/-- Outer while-loop of the sweep (App.svelte lines 204-240): shift a start
cell off the `unprocessed` array, mark it processed and flood its component. -/
def sweepOuter (fc : List (ℕ × List Conn)) :
    ℕ → List CellRec → List ℕ → List CellRec → List CellRec × List ℕ
  | 0, cells, pr, _ => (cells, pr)
  | _ + 1, cells, pr, [] => (cells, pr)
  | fuel + 1, cells, pr, start :: unp =>
    let r := sweepInner fc (2 * cells.length + 1) cells (start.uuid :: pr) unp [start.uuid]
    sweepOuter fc fuel r.1 r.2.1 r.2.2

/-- Phase 2 of a relaxation pass: collect the cells the BFS did not reach,
excluding `reference` cells, and flood each remaining component
(App.svelte lines 200-240). -/
def sweepPhase (fc : List (ℕ × List Conn)) (cells : List CellRec) (pr : List ℕ) :
    List CellRec × List ℕ :=
  let unprocessed := cells.filter fun c => c.uuid ∉ pr ∧ c.cellType ≠ "reference"
  sweepOuter fc cells.length cells pr unprocessed

/-- One step of `verifyAndCorrectCellConnections` for the cell with uuid `u`
(App.svelte lines 247-282): a `reference` cell is re-pinned to its rest
position; otherwise each recorded edge is examined in order — a `reference`
neighbour pulls this cell to the exact face offset on its far side, and for
a normal neighbour whose actual distance deviates from the expected
face-to-face distance by more than `0.001` the neighbour is repositioned
along the edge direction (both floor-clamped).  The current cell is re-read
from the evolving state before each edge, as the source reads it through the
object reference.  `correctEdge` is the per-edge body of the inner
`connections.forEach` (lines 255-281). -/
def correctEdge (u : ℕ) (cs : List CellRec) (conn : Conn) : List CellRec :=
  match findCell cs conn.cellId with
  | none => cs
  | some cell2 =>
    match findCell cs u with
    | none => cs
    | some c1 =>
      let expected := cellSize/2 * c1.scl + cellSize/2 * cell2.scl
      if cell2.cellType = "reference" then
        updateCell cs u (clampY (vadd cell2.pos (smul expected (vneg conn.direction))))
      else
        if deviatesB (distSq c1.pos cell2.pos) expected then
          if c1.cellType ≠ "reference" ∧ cell2.cellType ≠ "reference" then
            updateCell cs conn.cellId
              (clampY (vadd c1.pos (smul expected conn.direction)))
          else cs
        else cs

/-- The per-cell body of `verifyAndCorrectCellConnections`: pin a
`reference` cell to its rest position (line 250), otherwise fold
`correctEdge` over its recorded edges. -/
def correctCell (fc : List (ℕ × List Conn)) (rest : ℕ → Vec3)
    (cells : List CellRec) (u : ℕ) : List CellRec :=
  match findCell cells u with
  | none => cells
  | some cell1 =>
    if cell1.cellType = "reference" then updateCell cells u (rest u)
    else (getConns fc u).foldl (correctEdge u) cells

/-- `verifyAndCorrectCellConnections` (App.svelte lines 246-283): the
correction step applied to every cell of the array, in order. -/
def verifyAndCorrect (fc : List (ℕ × List Conn)) (rest : ℕ → Vec3)
    (cells : List CellRec) : List CellRec :=
  (cells.map (·.uuid)).foldl (correctCell fc rest) cells

/-- One relaxation pass of the per-frame loop (App.svelte lines 146-242):
anchored BFS, disconnected-component sweep, then the correction pass. -/
def relaxPass (fc : List (ℕ × List Conn)) (rest : ℕ → Vec3) (iteration : ℕ)
    (cells : List CellRec) : List CellRec :=
  let r1 := bfsPhase fc rest iteration cells
  let r2 := sweepPhase fc r1.1 r1.2
  verifyAndCorrect fc rest r2.1

/-- The per-frame scale assignment (App.svelte lines 137-143): cardiomyocyte
cells get the oscillation factor on all axes, every other cell gets 1. -/
def updateScales (osc : ℚ) (cells : List CellRec) : List CellRec :=
  cells.map fun c =>
    if c.cellType = "cardiomyocyte" then { c with scl := osc } else { c with scl := 1 }

/-- `MAX_ITERATIONS = 5` (App.svelte line 145). -/
def MAX_ITERATIONS : ℕ := 5

/-- One animation frame of `animateXenobot` (App.svelte lines 130-243),
parameterised by the oscillation factor the host computed for this frame:
set the scales, then run `MAX_ITERATIONS` relaxation passes with the
iteration index threaded through. -/
def runFrame (fc : List (ℕ × List Conn)) (rest : ℕ → Vec3) (osc : ℚ)
    (cells : List CellRec) : List CellRec :=
  (List.range MAX_ITERATIONS).foldl (fun cs it => relaxPass fc rest it cs)
    (updateScales osc cells)

/-- The oscillator (App.svelte line 135):
`0.6 + 0.4 * Math.sin(Math.PI * 1.5 * elapsedTime)`. -/
noncomputable def oscillationFactor (t : ℝ) : ℝ :=
  0.6 + 0.4 * Real.sin (Real.pi * 1.5 * t)

/-- Application state visible to the mode-toggle functions: the simulating
flag, the visibility of the petri-dish base and wall, the
`originalCellPositions` snapshot, and the cell registry. -/
structure AppState where
  isSimulating : Bool
  baseVisible : Bool
  wallVisible : Bool
  snapshot : List (ℕ × Vec3)
  cells : List CellRec
deriving DecidableEq, Repr

/-- `enterSimulationMode` (App.svelte lines 76-98) as a state transform:
an early return while already simulating; with an empty cell set the flag
and the visuals are rolled back and the cleared snapshot kept empty;
otherwise the visuals are hidden and every cell position is snapshotted.
The frame loop the nonempty branch starts is modelled separately by
`runFrame`. -/
def enterSimulationMode (s : AppState) : AppState :=
  if s.isSimulating then s
  else if s.cells.isEmpty then
    { s with isSimulating := false, baseVisible := true, wallVisible := true,
             snapshot := [] }
  else
    { s with isSimulating := true, baseVisible := false, wallVisible := false,
             snapshot := s.cells.map fun c => (c.uuid, c.pos) }

/-- Restoring one cell from the snapshot on exit (App.svelte lines 300-305):
when the snapshot holds the uuid, the position is copied back and the scale
reset to 1. -/
def restoreCell (snap : List (ℕ × Vec3)) (c : CellRec) : CellRec :=
  match snap.find? (fun p => p.1 = c.uuid) with
  | some p => { c with pos := p.2, scl := 1 }
  | none => c

/-- `exitSimulationMode` (App.svelte lines 287-307): an early return while
idle; otherwise restore the visuals, copy every snapshotted position back,
reset scales and discard the snapshot. -/
def exitSimulationMode (s : AppState) : AppState :=
  if s.isSimulating then
    { s with isSimulating := false, baseVisible := true, wallVisible := true,
             cells := s.cells.map (restoreCell s.snapshot), snapshot := [] }
  else s

/-- A run of animation frames while simulating: each frame only rewrites the
cell positions and scales (App.svelte touches nothing else per frame). -/
def simFrames (fc : List (ℕ × List Conn)) (rest : ℕ → Vec3) (oscs : List ℚ)
    (s : AppState) : AppState :=
  { s with cells := oscs.foldl (fun cs o => runFrame fc rest o cs) s.cells }

/-! ### Basic helper lemmas -/

/-- The uuid, cell type and scale of a cell: everything a relaxation pass
leaves untouched (passes only write positions). -/
def shapeS (c : CellRec) : ℕ × String × ℚ := (c.uuid, c.cellType, c.scl)

lemma updateCell_shapeS (cells : List CellRec) (u : ℕ) (p : Vec3) :
    (updateCell cells u p).map shapeS = cells.map shapeS := by
  unfold updateCell
  rw [List.map_map]
  refine List.map_congr_left fun c _ => ?_
  by_cases h : c.uuid = u <;> simp [shapeS, h]

lemma findCell_self {cells : List CellRec} {a : CellRec}
    (hnd : (cells.map CellRec.uuid).Nodup) (ha : a ∈ cells) :
    findCell cells a.uuid = some a := by
  induction cells with
  | nil => cases ha
  | cons h t ih =>
    rcases List.mem_cons.mp ha with rfl | hmem
    · simp [findCell]
    · by_cases he : h.uuid = a.uuid
      · exfalso
        simp only [List.map_cons, List.nodup_cons] at hnd
        exact hnd.1 (he ▸ List.mem_map_of_mem CellRec.uuid hmem)
      · simp only [List.map_cons, List.nodup_cons] at hnd
        simpa [findCell, List.find?_cons, he] using ih hnd.2 hmem

lemma uuid_inj {cells : List CellRec} {a b : CellRec}
    (hnd : (cells.map CellRec.uuid).Nodup) (ha : a ∈ cells) (hb : b ∈ cells)
    (h : a.uuid = b.uuid) : a = b :=
  List.inj_on_of_nodup_map hnd ha hb h

lemma findCell_mem {cells : List CellRec} {u : ℕ} {c : CellRec}
    (h : findCell cells u = some c) : c ∈ cells ∧ c.uuid = u := by
  unfold findCell at h
  refine ⟨List.mem_of_find?_eq_some h, ?_⟩
  have := List.find?_some h
  simpa using this

/-! ### Shape preservation: the solver phases only write positions -/

lemma visitOne_shapeS (u : ℕ) (st : List CellRec × List ℕ × List ℕ) (conn : Conn) :
    ((visitOneConnection u st conn).1).map shapeS = (st.1).map shapeS := by
  obtain ⟨cells, pr, nq⟩ := st
  rcases h1 : findCell cells conn.cellId with _ | nb
  · simp [visitOneConnection, h1]
  · rcases h2 : findCell cells u with _ | cur
    · simp [visitOneConnection, h1, h2]
    · by_cases hc : conn.cellId ∈ pr ∨ nb.cellType = "reference"
      · simp [visitOneConnection, h1, h2, hc]
      · simp [visitOneConnection, h1, h2, hc, updateCell_shapeS]

lemma foldlVisit_shapeS (u : ℕ) (conns : List Conn) (st : List CellRec × List ℕ × List ℕ) :
    ((conns.foldl (visitOneConnection u) st).1).map shapeS = (st.1).map shapeS := by
  induction conns generalizing st with
  | nil => rfl
  | cons c cs ih => rw [List.foldl_cons, ih, visitOne_shapeS]

lemma bfsLoop_shapeS (fc : List (ℕ × List Conn)) (rest : ℕ → Vec3) (it : ℕ) :
    ∀ (fuel : ℕ) (cells : List CellRec) (pr q : List ℕ),
      ((bfsLoop fc rest it fuel cells pr q).1).map shapeS = cells.map shapeS := by
  intro fuel
  induction fuel with
  | zero => intro cells pr q; rfl
  | succ n ih =>
    intro cells pr q
    cases q with
    | nil => rfl
    | cons u q' =>
      rcases hf : findCell cells u with _ | cur
      · simp only [bfsLoop, hf]
        exact ih cells pr q'
      · by_cases h1 : cur.cellType = "reference" ∧ it ≠ 0
        · simp only [bfsLoop, hf, if_pos h1]
          exact ih cells pr q'
        · by_cases h2 : cur.cellType = "reference" ∧ it = 0
          · simp only [bfsLoop, hf, if_neg h1, if_pos h2]
            rw [ih, foldlVisit_shapeS]
            exact updateCell_shapeS cells u (rest u)
          · simp only [bfsLoop, hf, if_neg h1, if_neg h2]
            rw [ih, foldlVisit_shapeS]

lemma sweepInner_shapeS (fc : List (ℕ × List Conn)) :
    ∀ (fuel : ℕ) (cells : List CellRec) (pr : List ℕ) (unp : List CellRec) (q : List ℕ),
      ((sweepInner fc fuel cells pr unp q).1).map shapeS = cells.map shapeS := by
  intro fuel
  induction fuel with
  | zero => intro cells pr unp q; rfl
  | succ n ih =>
    intro cells pr unp q
    cases q with
    | nil => rfl
    | cons u q' =>
      rcases hf : findCell cells u with _ | cur
      · simp only [sweepInner, hf]
        exact ih cells pr unp q'
      · simp only [sweepInner, hf]
        rw [ih, foldlVisit_shapeS]

lemma sweepOuter_shapeS (fc : List (ℕ × List Conn)) :
    ∀ (fuel : ℕ) (cells : List CellRec) (pr : List ℕ) (unp : List CellRec),
      ((sweepOuter fc fuel cells pr unp).1).map shapeS = cells.map shapeS := by
  intro fuel
  induction fuel with
  | zero => intro cells pr unp; rfl
  | succ n ih =>
    intro cells pr unp
    cases unp with
    | nil => rfl
    | cons start unp' =>
      simp only [sweepOuter]
      rw [ih, sweepInner_shapeS]

lemma correctEdge_shapeS (u : ℕ) (cs : List CellRec) (conn : Conn) :
    (correctEdge u cs conn).map shapeS = cs.map shapeS := by
  rcases h1 : findCell cs conn.cellId with _ | cell2
  · simp [correctEdge, h1]
  · rcases h2 : findCell cs u with _ | c1
    · simp [correctEdge, h1, h2]
    · by_cases h3 : cell2.cellType = "reference"
      · simp [correctEdge, h1, h2, h3, updateCell_shapeS]
      · by_cases h4 : deviatesB (distSq c1.pos cell2.pos)
            (cellSize/2 * c1.scl + cellSize/2 * cell2.scl) = true
        · by_cases h5 : c1.cellType ≠ "reference" ∧ cell2.cellType ≠ "reference"
          · simp [correctEdge, h1, h2, h3, h4, h5, updateCell_shapeS]
          · simp only [correctEdge, h1, h2, h3, h4]
            split <;> simp [updateCell_shapeS, h3, h5]
        · simp [correctEdge, h1, h2, h3, h4]

lemma foldlCorrectEdge_shapeS (u : ℕ) (conns : List Conn) (cs : List CellRec) :
    ((conns.foldl (correctEdge u) cs)).map shapeS = cs.map shapeS := by
  induction conns generalizing cs with
  | nil => rfl
  | cons c cs' ih => rw [List.foldl_cons, ih, correctEdge_shapeS]

lemma correctCell_shapeS (fc : List (ℕ × List Conn)) (rest : ℕ → Vec3)
    (cells : List CellRec) (u : ℕ) :
    (correctCell fc rest cells u).map shapeS = cells.map shapeS := by
  rcases hf : findCell cells u with _ | cell1
  · simp [correctCell, hf]
  · by_cases h : cell1.cellType = "reference"
    · simp [correctCell, hf, h, updateCell_shapeS]
    · simp [correctCell, hf, h, foldlCorrectEdge_shapeS]

lemma verifyAndCorrect_shapeS (fc : List (ℕ × List Conn)) (rest : ℕ → Vec3)
    (cells : List CellRec) :
    (verifyAndCorrect fc rest cells).map shapeS = cells.map shapeS := by
  unfold verifyAndCorrect
  generalize cells.map (·.uuid) = us
  induction us generalizing cells with
  | nil => rfl
  | cons u us' ih => rw [List.foldl_cons, ih, correctCell_shapeS]

lemma relaxPass_shapeS (fc : List (ℕ × List Conn)) (rest : ℕ → Vec3) (it : ℕ)
    (cells : List CellRec) :
    (relaxPass fc rest it cells).map shapeS = cells.map shapeS := by
  unfold relaxPass sweepPhase bfsPhase
  rw [verifyAndCorrect_shapeS, sweepOuter_shapeS, bfsLoop_shapeS]

lemma passesFold_shapeS (fc : List (ℕ × List Conn)) (rest : ℕ → Vec3)
    (its : List ℕ) (cells : List CellRec) :
    ((its.foldl (fun cs it => relaxPass fc rest it cs) cells)).map shapeS =
      cells.map shapeS := by
  induction its generalizing cells with
  | nil => rfl
  | cons i is ih => rw [List.foldl_cons, ih, relaxPass_shapeS]

lemma updateScales_shapeS (osc : ℚ) (cells : List CellRec) :
    (updateScales osc cells).map shapeS =
      cells.map fun c =>
        (c.uuid, c.cellType, if c.cellType = "cardiomyocyte" then osc else 1) := by
  unfold updateScales
  rw [List.map_map]
  refine List.map_congr_left fun c _ => ?_
  by_cases h : c.cellType = "cardiomyocyte" <;> simp [shapeS, h]

lemma runFrame_shapeS (fc : List (ℕ × List Conn)) (rest : ℕ → Vec3) (osc : ℚ)
    (cells : List CellRec) :
    (runFrame fc rest osc cells).map shapeS =
      cells.map fun c =>
        (c.uuid, c.cellType, if c.cellType = "cardiomyocyte" then osc else 1) := by
  unfold runFrame
  rw [passesFold_shapeS, updateScales_shapeS]

/-! ### C8: the oscillator -/

/-- C8: each frame, every cardiomyocyte (actuator) cell ends with scale
equal to the oscillation factor and every other cell with scale exactly 1
(the relaxation passes never touch scales); and the oscillation factor
`0.6 + 0.4 * sin(1.5 * pi * t)` always lies in the range `[0.2, 1.0]`. -/
theorem c8_oscillator :
    (∀ t : ℝ, (1/5 : ℝ) ≤ oscillationFactor t ∧ oscillationFactor t ≤ 1) ∧
    (∀ (fc : List (ℕ × List Conn)) (rest : ℕ → Vec3) (osc : ℚ) (cells : List CellRec),
      (runFrame fc rest osc cells).map shapeS =
        cells.map fun c =>
          (c.uuid, c.cellType, if c.cellType = "cardiomyocyte" then osc else 1)) := by
  constructor
  · intro t
    unfold oscillationFactor
    have h1 := Real.neg_one_le_sin (Real.pi * 1.5 * t)
    have h2 := Real.sin_le_one (Real.pi * 1.5 * t)
    constructor <;> nlinarith
  · intro fc rest osc cells
    exact runFrame_shapeS fc rest osc cells

/-! ### C5: floor invariant -/

/-- All current cell centres are at least half a cube above the dish floor. -/
def FloorOK (cells : List CellRec) : Prop :=
  ∀ c ∈ cells, cellSize/2 ≤ c.pos.y

lemma clampY_floor (v : Vec3) : cellSize/2 ≤ (clampY v).y := le_max_left _ _

lemma floorOK_updateCell {cells : List CellRec} {u : ℕ} {p : Vec3}
    (h : FloorOK cells) (hp : cellSize/2 ≤ p.y) : FloorOK (updateCell cells u p) := by
  intro c hc
  unfold updateCell at hc
  obtain ⟨c0, hc0, rfl⟩ := List.mem_map.mp hc
  by_cases he : c0.uuid = u
  · simpa [he] using hp
  · simpa [he] using h c0 hc0

lemma floorOK_visitOne {u : ℕ} {st : List CellRec × List ℕ × List ℕ} {conn : Conn}
    (h : FloorOK st.1) : FloorOK (visitOneConnection u st conn).1 := by
  obtain ⟨cells, pr, nq⟩ := st
  rcases h1 : findCell cells conn.cellId with _ | nb
  · simpa [visitOneConnection, h1] using h
  · rcases h2 : findCell cells u with _ | cur
    · simpa [visitOneConnection, h1, h2] using h
    · by_cases hc : conn.cellId ∈ pr ∨ nb.cellType = "reference"
      · simpa [visitOneConnection, h1, h2, hc] using h
      · simp only [visitOneConnection, h1, h2, if_neg hc]
        exact floorOK_updateCell h (clampY_floor _)

lemma floorOK_foldVisit {u : ℕ} {conns : List Conn} {st : List CellRec × List ℕ × List ℕ}
    (h : FloorOK st.1) : FloorOK ((conns.foldl (visitOneConnection u) st).1) := by
  induction conns generalizing st with
  | nil => exact h
  | cons c cs ih => exact ih (floorOK_visitOne h)

lemma floorOK_bfsLoop (fc : List (ℕ × List Conn)) {rest : ℕ → Vec3} (it : ℕ)
    (hrest : ∀ u, cellSize/2 ≤ (rest u).y) :
    ∀ (fuel : ℕ) (cells : List CellRec) (pr q : List ℕ),
      FloorOK cells → FloorOK (bfsLoop fc rest it fuel cells pr q).1 := by
  intro fuel
  induction fuel with
  | zero => intro cells pr q h; exact h
  | succ n ih =>
    intro cells pr q h
    cases q with
    | nil => exact h
    | cons u q' =>
      rcases hf : findCell cells u with _ | cur
      · simp only [bfsLoop, hf]
        exact ih cells pr q' h
      · by_cases h1 : cur.cellType = "reference" ∧ it ≠ 0
        · simp only [bfsLoop, hf, if_pos h1]
          exact ih cells pr q' h
        · by_cases h2 : cur.cellType = "reference" ∧ it = 0
          · simp only [bfsLoop, hf, if_neg h1, if_pos h2]
            exact ih _ _ _ (floorOK_foldVisit (floorOK_updateCell h (hrest u)))
          · simp only [bfsLoop, hf, if_neg h1, if_neg h2]
            exact ih _ _ _ (floorOK_foldVisit h)

lemma floorOK_sweepInner (fc : List (ℕ × List Conn)) :
    ∀ (fuel : ℕ) (cells : List CellRec) (pr : List ℕ) (unp : List CellRec) (q : List ℕ),
      FloorOK cells → FloorOK (sweepInner fc fuel cells pr unp q).1 := by
  intro fuel
  induction fuel with
  | zero => intro cells pr unp q h; exact h
  | succ n ih =>
    intro cells pr unp q h
    cases q with
    | nil => exact h
    | cons u q' =>
      rcases hf : findCell cells u with _ | cur
      · simp only [sweepInner, hf]
        exact ih cells pr unp q' h
      · simp only [sweepInner, hf]
        exact ih _ _ _ _ (floorOK_foldVisit h)

lemma floorOK_sweepOuter (fc : List (ℕ × List Conn)) :
    ∀ (fuel : ℕ) (cells : List CellRec) (pr : List ℕ) (unp : List CellRec),
      FloorOK cells → FloorOK (sweepOuter fc fuel cells pr unp).1 := by
  intro fuel
  induction fuel with
  | zero => intro cells pr unp h; exact h
  | succ n ih =>
    intro cells pr unp h
    cases unp with
    | nil => exact h
    | cons start unp' =>
      simp only [sweepOuter]
      exact ih _ _ _ (floorOK_sweepInner fc _ _ _ _ _ h)

lemma floorOK_correctEdge {u : ℕ} {cs : List CellRec} {conn : Conn}
    (h : FloorOK cs) : FloorOK (correctEdge u cs conn) := by
  rcases h1 : findCell cs conn.cellId with _ | cell2
  · simpa [correctEdge, h1] using h
  · rcases h2 : findCell cs u with _ | c1
    · simpa [correctEdge, h1, h2] using h
    · by_cases h3 : cell2.cellType = "reference"
      · simp only [correctEdge, h1, h2, if_pos h3]
        exact floorOK_updateCell h (clampY_floor _)
      · simp only [correctEdge, h1, h2, if_neg h3]
        split
        · split
          · exact floorOK_updateCell h (clampY_floor _)
          · exact h
        · exact h

lemma floorOK_foldCorrectEdge {u : ℕ} :
    ∀ (conns : List Conn) (cs : List CellRec),
      FloorOK cs → FloorOK (conns.foldl (correctEdge u) cs) := by
  intro conns
  induction conns with
  | nil => intro cs h; exact h
  | cons c rest ih =>
    intro cs h
    rw [List.foldl_cons]
    exact ih _ (floorOK_correctEdge h)

lemma floorOK_correctCell {fc : List (ℕ × List Conn)} {rest : ℕ → Vec3}
    {cells : List CellRec} {u : ℕ}
    (hrest : ∀ v, cellSize/2 ≤ (rest v).y) (h : FloorOK cells) :
    FloorOK (correctCell fc rest cells u) := by
  rcases hf : findCell cells u with _ | cell1
  · simpa [correctCell, hf] using h
  · by_cases h1 : cell1.cellType = "reference"
    · simp only [correctCell, hf, if_pos h1]
      exact floorOK_updateCell h (hrest u)
    · simp only [correctCell, hf, if_neg h1]
      exact floorOK_foldCorrectEdge _ _ h

lemma floorOK_foldCorrectCell {fc : List (ℕ × List Conn)} {rest : ℕ → Vec3}
    (hrest : ∀ v, cellSize/2 ≤ (rest v).y) :
    ∀ (us : List ℕ) (cells : List CellRec),
      FloorOK cells → FloorOK (us.foldl (correctCell fc rest) cells) := by
  intro us
  induction us with
  | nil => intro cells h; exact h
  | cons u us' ih =>
    intro cells h
    rw [List.foldl_cons]
    exact ih _ (floorOK_correctCell hrest h)

lemma floorOK_verifyAndCorrect {fc : List (ℕ × List Conn)} {rest : ℕ → Vec3}
    {cells : List CellRec}
    (hrest : ∀ v, cellSize/2 ≤ (rest v).y) (h : FloorOK cells) :
    FloorOK (verifyAndCorrect fc rest cells) := by
  unfold verifyAndCorrect
  exact floorOK_foldCorrectCell hrest (cells.map (·.uuid)) cells h

lemma floorOK_relaxPass {fc : List (ℕ × List Conn)} {rest : ℕ → Vec3} {it : ℕ}
    {cells : List CellRec}
    (hrest : ∀ v, cellSize/2 ≤ (rest v).y) (h : FloorOK cells) :
    FloorOK (relaxPass fc rest it cells) := by
  unfold relaxPass sweepPhase bfsPhase
  exact floorOK_verifyAndCorrect hrest
    (floorOK_sweepOuter fc _ _ _ _ (floorOK_bfsLoop fc it hrest _ _ _ _ h))

lemma floorOK_updateScales {osc : ℚ} {cells : List CellRec}
    (h : FloorOK cells) : FloorOK (updateScales osc cells) := by
  intro c hc
  unfold updateScales at hc
  obtain ⟨c0, hc0, rfl⟩ := List.mem_map.mp hc
  by_cases ht : c0.cellType = "cardiomyocyte" <;> simpa [ht] using h c0 hc0

lemma floorOK_runFrame {fc : List (ℕ × List Conn)} {rest : ℕ → Vec3} {osc : ℚ}
    {cells : List CellRec}
    (hrest : ∀ v, cellSize/2 ≤ (rest v).y) (h : FloorOK cells) :
    FloorOK (runFrame fc rest osc cells) := by
  unfold runFrame
  generalize List.range MAX_ITERATIONS = its
  have h0 : FloorOK (updateScales osc cells) := floorOK_updateScales h
  generalize hgen : updateScales osc cells = start at h0
  clear hgen
  induction its generalizing start with
  | nil => exact h0
  | cons i is ih => exact ih _ (floorOK_relaxPass hrest h0)

/-- C5: while simulating, provided the snapshot rest positions respect the
floor (they do in any state the editor can produce, since placement clamps
y to at least `cellSize/2`), every phase of a relaxation pass — the anchored
BFS, the disconnected-component sweep and the correction pass — and hence a
whole frame keeps every cell centre at least `cellSize/2` above the dish
floor. -/
theorem c5_floor_invariant (fc : List (ℕ × List Conn)) (rest : ℕ → Vec3)
    (it : ℕ) (oscQ : ℚ) (cells : List CellRec) (pr : List ℕ)
    (hrest : ∀ v, cellSize/2 ≤ (rest v).y) (hcells : FloorOK cells) :
    FloorOK (bfsPhase fc rest it cells).1 ∧
    FloorOK (sweepPhase fc cells pr).1 ∧
    FloorOK (verifyAndCorrect fc rest cells) ∧
    FloorOK (runFrame fc rest oscQ cells) := by
  refine ⟨?_, ?_, ?_, ?_⟩
  · unfold bfsPhase
    exact floorOK_bfsLoop fc it hrest _ _ _ _ hcells
  · unfold sweepPhase
    exact floorOK_sweepOuter fc _ _ _ _ hcells
  · exact floorOK_verifyAndCorrect hrest hcells
  · exact floorOK_runFrame hrest hcells

/-- Witness for C5 at a concrete one-cell structure resting on the floor. -/
theorem c5_floor_invariant_witness :
    (∀ v, cellSize/2 ≤ ((fun _ : ℕ => (⟨0, cellSize/2, 0⟩ : Vec3)) v).y) ∧
    FloorOK [⟨0, "epithelial", ⟨0, cellSize/2, 0⟩, 1⟩] ∧
    FloorOK (runFrame (buildConnections [⟨0, "epithelial", ⟨0, cellSize/2, 0⟩, 1⟩])
      (fun _ => ⟨0, cellSize/2, 0⟩) 1 [⟨0, "epithelial", ⟨0, cellSize/2, 0⟩, 1⟩]) := by
  have hrest : ∀ v, cellSize/2 ≤ ((fun _ : ℕ => (⟨0, cellSize/2, 0⟩ : Vec3)) v).y :=
    fun _ => le_refl _
  have hcells : FloorOK [⟨0, "epithelial", ⟨0, cellSize/2, 0⟩, 1⟩] := by
    intro c hc
    simp only [List.mem_singleton] at hc
    subst hc
    exact le_refl _
  exact ⟨hrest, hcells,
    (c5_floor_invariant (buildConnections [⟨0, "epithelial", ⟨0, cellSize/2, 0⟩, 1⟩])
      (fun _ => ⟨0, cellSize/2, 0⟩) 0 1
      [⟨0, "epithelial", ⟨0, cellSize/2, 0⟩, 1⟩] [] hrest hcells).2.2.2⟩

/-! ### Evaluation helpers: string-literal comparisons and the iteration
range, used to evaluate the solver on concrete inputs by rewriting -/

lemma range_five : List.range 5 = [0, 1, 2, 3, 4] := rfl

lemma str_ec : ("epithelial" = "cardiomyocyte") = False := by simp

lemma str_er : ("epithelial" = "reference") = False := by simp

lemma str_cc : ("cardiomyocyte" = "cardiomyocyte") = True := by simp

lemma str_cr : ("cardiomyocyte" = "reference") = False := by simp

lemma str_rc : ("reference" = "cardiomyocyte") = False := by simp

lemma str_rr : ("reference" = "reference") = True := by simp

lemma str_ee : ("epithelial" = "epithelial") = True := by simp

/-! ### Adjacency builder characterisation -/

lemma mem_connsFor {cells : List CellRec} {a : CellRec} {v : ℕ} {d : Vec3} :
    (Conn.mk v d ∈ connsFor cells a) ↔
      ∃ c2 ∈ cells, c2.uuid = v ∧ a.uuid ≠ c2.uuid ∧ d ∈ faceDirections ∧
        distSq (vadd a.pos (smul cellSize d)) c2.pos < tolerance^2 := by
  unfold connsFor
  rw [List.mem_flatMap]
  constructor
  · rintro ⟨c2, hc2, hmem⟩
    by_cases he : a.uuid = c2.uuid
    · simp [he] at hmem
    · rw [if_neg he, List.mem_filterMap] at hmem
      obtain ⟨d', hd', hsome⟩ := hmem
      by_cases hc : distSq (vadd a.pos (smul cellSize d')) c2.pos < tolerance^2
      · rw [if_pos hc] at hsome
        simp only [Option.some.injEq, Conn.mk.injEq] at hsome
        obtain ⟨hv, hd⟩ := hsome
        subst hd
        exact ⟨c2, hc2, hv, he, hd', hc⟩
      · rw [if_neg hc] at hsome
        cases hsome
  · rintro ⟨c2, hc2, hv, he, hd, hlt⟩
    refine ⟨c2, hc2, ?_⟩
    rw [if_neg he, List.mem_filterMap]
    exact ⟨d, hd, by rw [if_pos hlt, hv]⟩

lemma find?_map_entry (g : CellRec → List Conn) (L : List CellRec) (u : ℕ) :
    (L.map fun c => (c.uuid, g c)).find? (fun p => p.1 = u) =
      (L.find? fun c => c.uuid = u).map fun c => (c.uuid, g c) := by
  induction L with
  | nil => rfl
  | cons h t ih =>
    by_cases he : h.uuid = u
    · simp [List.find?_cons, he]
    · simp [List.find?_cons, he, ih]

lemma getConns_build {cells : List CellRec} {a : CellRec}
    (hnd : (cells.map CellRec.uuid).Nodup) (ha : a ∈ cells) :
    getConns (buildConnections cells) a.uuid = connsFor cells a := by
  unfold getConns buildConnections
  rw [find?_map_entry]
  have : cells.find? (fun c => c.uuid = a.uuid) = some a := findCell_self hnd ha
  rw [this]
  rfl

lemma mem_connsFor_iff {cells : List CellRec} {a b : CellRec} {d : Vec3}
    (hnd : (cells.map CellRec.uuid).Nodup) (hb : b ∈ cells) :
    (Conn.mk b.uuid d ∈ connsFor cells a) ↔
      (a.uuid ≠ b.uuid ∧ d ∈ faceDirections ∧
        distSq (vadd a.pos (smul cellSize d)) b.pos < tolerance^2) := by
  rw [mem_connsFor]
  constructor
  · rintro ⟨c2, hc2, hv, he, hd, hlt⟩
    have : c2 = b := uuid_inj hnd hc2 hb hv
    subst this
    exact ⟨fun h => he h, hd, hlt⟩
  · rintro ⟨he, hd, hlt⟩
    exact ⟨b, hb, rfl, he, hd, hlt⟩

lemma vneg_vneg (v : Vec3) : vneg (vneg v) = v := by
  cases v; simp [vneg]

lemma vneg_mem_faceDirections {d : Vec3} (h : d ∈ faceDirections) :
    vneg d ∈ faceDirections := by
  simp only [faceDirections, List.mem_cons, List.not_mem_nil, or_false] at h
  rcases h with rfl | rfl | rfl | rfl | rfl | rfl <;> decide

lemma distSq_vneg_symm (a b d : Vec3) :
    distSq (vadd b (smul cellSize (vneg d))) a =
      distSq (vadd a (smul cellSize d)) b := by
  cases a; cases b; cases d
  simp only [distSq, vadd, smul, vneg]
  ring

/-! ### Position tracking helpers -/

lemma updateCell_head_uuid (a : CellRec) (u : ℕ) (p : Vec3) :
    (if a.uuid = u then { a with pos := p } else a).uuid = a.uuid := by
  split <;> rfl

lemma posOf_updateCell_ne {cells : List CellRec} {u v : ℕ} {p : Vec3} (h : v ≠ u) :
    posOf (updateCell cells u p) v = posOf cells v := by
  induction cells with
  | nil => rfl
  | cons a t ih =>
    unfold updateCell posOf findCell
    rw [List.map_cons]
    by_cases hv : a.uuid = v
    · have hau : ¬ a.uuid = u := fun hh => h (hv.symm.trans hh)
      rw [if_neg hau]
      rw [List.find?_cons_of_pos _ (by simpa using hv),
        List.find?_cons_of_pos _ (by simpa using hv)]
    · rw [List.find?_cons_of_neg _ (by simp [updateCell_head_uuid, hv]),
        List.find?_cons_of_neg _ (by simpa using hv)]
      exact ih

lemma posOf_updateCell_self {cells : List CellRec} {u : ℕ} {c : CellRec} {p : Vec3}
    (h : findCell cells u = some c) :
    posOf (updateCell cells u p) u = some p := by
  induction cells with
  | nil => simp [findCell] at h
  | cons a t ih =>
    unfold updateCell posOf findCell
    rw [List.map_cons]
    by_cases ha : a.uuid = u
    · rw [if_pos ha]
      rw [List.find?_cons_of_pos _ (by simpa using ha)]
      rfl
    · rw [if_neg ha, List.find?_cons_of_neg _ (by simp [ha])]
      unfold findCell at h
      rw [List.find?_cons_of_neg _ (by simpa using ha)] at h
      exact ih h

lemma typeOf_eq_of_shapeS :
    ∀ {cs cells : List CellRec}, cs.map shapeS = cells.map shapeS →
      ∀ v, typeOf cs v = typeOf cells v := by
  intro cs
  induction cs with
  | nil =>
    intro cells h v
    cases cells with
    | nil => rfl
    | cons b t2 => simp at h
  | cons a t ih =>
    intro cells h v
    cases cells with
    | nil => simp at h
    | cons b t2 =>
      simp only [List.map_cons, List.cons.injEq] at h
      obtain ⟨h1, h2⟩ := h
      have hu : a.uuid = b.uuid := congrArg (fun x => x.1) h1
      have ht : a.cellType = b.cellType := congrArg (fun x => x.2.1) h1
      by_cases hv : a.uuid = v
      · simp [typeOf, findCell, List.find?_cons, hv, hu ▸ hv, ht]
      · have hv2 : ¬ b.uuid = v := hu ▸ hv
        simpa [typeOf, findCell, List.find?_cons, hv, hv2] using ih h2 v

lemma forall_type_of_shapeS {cs cells : List CellRec}
    (h : cs.map shapeS = cells.map shapeS) (P : String → Prop)
    (hp : ∀ c ∈ cells, P c.cellType) : ∀ c ∈ cs, P c.cellType := by
  intro c hc
  have hmem : shapeS c ∈ cells.map shapeS := h ▸ List.mem_map_of_mem shapeS hc
  obtain ⟨c2, hc2, he⟩ := List.mem_map.mp hmem
  have : c2.cellType = c.cellType := congrArg (fun x => x.2.1) he
  exact this ▸ hp c2 hc2

/-! ### Processed cells are never repositioned by the BFS or the sweep -/

lemma visitOne_nomove {u w : ℕ} {st : List CellRec × List ℕ × List ℕ} {conn : Conn}
    (hw : w ∈ st.2.1) :
    posOf (visitOneConnection u st conn).1 w = posOf st.1 w ∧
      w ∈ (visitOneConnection u st conn).2.1 := by
  obtain ⟨cells, pr, nq⟩ := st
  rcases h1 : findCell cells conn.cellId with _ | nb
  · simp only [visitOneConnection, h1]
    exact ⟨trivial, hw⟩
  · rcases h2 : findCell cells u with _ | cur
    · simp only [visitOneConnection, h1, h2]
      exact ⟨trivial, hw⟩
    · by_cases hc : conn.cellId ∈ pr ∨ nb.cellType = "reference"
      · simp only [visitOneConnection, h1, h2, if_pos hc]
        exact ⟨trivial, hw⟩
      · simp only [visitOneConnection, h1, h2, if_neg hc]
        have hne : w ≠ conn.cellId := by
          intro he
          exact hc (Or.inl (he ▸ hw))
        exact ⟨posOf_updateCell_ne hne, List.mem_cons_of_mem _ hw⟩

lemma foldVisit_nomove {u w : ℕ} :
    ∀ (conns : List Conn) (st : List CellRec × List ℕ × List ℕ), w ∈ st.2.1 →
      posOf ((conns.foldl (visitOneConnection u) st).1) w = posOf st.1 w ∧
        w ∈ ((conns.foldl (visitOneConnection u) st)).2.1 := by
  intro conns
  induction conns with
  | nil => intro st hw; exact ⟨rfl, hw⟩
  | cons c cs ih =>
    intro st hw
    rw [List.foldl_cons]
    obtain ⟨he, hm⟩ := @visitOne_nomove u w st c hw
    obtain ⟨he2, hm2⟩ := ih _ hm
    exact ⟨he2.trans he, hm2⟩

lemma bfsLoop_noref_nomove (fc : List (ℕ × List Conn)) (rest : ℕ → Vec3) (it : ℕ) {w : ℕ} :
    ∀ (fuel : ℕ) (cells : List CellRec) (pr q : List ℕ),
      (∀ c ∈ cells, c.cellType ≠ "reference") → w ∈ pr →
      posOf (bfsLoop fc rest it fuel cells pr q).1 w = posOf cells w := by
  intro fuel
  induction fuel with
  | zero => intro cells pr q _ _; rfl
  | succ n ih =>
    intro cells pr q hnr hw
    cases q with
    | nil => rfl
    | cons u q' =>
      rcases hf : findCell cells u with _ | cur
      · simp only [bfsLoop, hf]
        exact ih cells pr q' hnr hw
      · have hcur : cur.cellType ≠ "reference" :=
          hnr cur (findCell_mem hf).1
        have h1 : ¬(cur.cellType = "reference" ∧ it ≠ 0) := fun h => hcur h.1
        have h2 : ¬(cur.cellType = "reference" ∧ it = 0) := fun h => hcur h.1
        simp only [bfsLoop, hf, if_neg h1, if_neg h2]
        obtain ⟨he, hm⟩ := @foldVisit_nomove u w (getConns fc u) (cells, pr, []) hw
        have hsh := foldlVisit_shapeS u (getConns fc u) (cells, pr, [])
        have hnr2 := forall_type_of_shapeS hsh (fun t => t ≠ "reference") hnr
        rw [ih _ _ _ hnr2 hm, he]

lemma sweepInner_nomove (fc : List (ℕ × List Conn)) {w : ℕ} :
    ∀ (fuel : ℕ) (cells : List CellRec) (pr : List ℕ) (unp : List CellRec) (q : List ℕ),
      w ∈ pr →
      posOf (sweepInner fc fuel cells pr unp q).1 w = posOf cells w ∧
        w ∈ (sweepInner fc fuel cells pr unp q).2.1 := by
  intro fuel
  induction fuel with
  | zero => intro cells pr unp q hw; exact ⟨rfl, hw⟩
  | succ n ih =>
    intro cells pr unp q hw
    cases q with
    | nil => exact ⟨rfl, hw⟩
    | cons u q' =>
      rcases hf : findCell cells u with _ | cur
      · simp only [sweepInner, hf]
        exact ih cells pr unp q' hw
      · simp only [sweepInner, hf]
        obtain ⟨he, hm⟩ := @foldVisit_nomove u w (getConns fc u) (cells, pr, []) hw
        obtain ⟨he2, hm2⟩ := ih _ _ _ _ hm
        exact ⟨he2.trans he, hm2⟩

lemma sweepOuter_nomove (fc : List (ℕ × List Conn)) {w : ℕ} :
    ∀ (fuel : ℕ) (cells : List CellRec) (pr : List ℕ) (unp : List CellRec),
      w ∈ pr →
      posOf (sweepOuter fc fuel cells pr unp).1 w = posOf cells w := by
  intro fuel
  induction fuel with
  | zero => intro cells pr unp _; rfl
  | succ n ih =>
    intro cells pr unp hw
    cases unp with
    | nil => rfl
    | cons start unp' =>
      simp only [sweepOuter]
      obtain ⟨he, hm⟩ :=
        sweepInner_nomove fc _ cells (start.uuid :: pr) unp' [start.uuid]
          (List.mem_cons_of_mem _ hw)
      rw [ih _ _ _ hm, he]

lemma bfsLoop_pr_mono (fc : List (ℕ × List Conn)) (rest : ℕ → Vec3) (it : ℕ) {w : ℕ} :
    ∀ (fuel : ℕ) (cells : List CellRec) (pr q : List ℕ),
      w ∈ pr → w ∈ (bfsLoop fc rest it fuel cells pr q).2 := by
  intro fuel
  induction fuel with
  | zero => intro cells pr q hw; exact hw
  | succ n ih =>
    intro cells pr q hw
    cases q with
    | nil => exact hw
    | cons u q' =>
      rcases hf : findCell cells u with _ | cur
      · simp only [bfsLoop, hf]
        exact ih _ _ _ hw
      · by_cases h1 : cur.cellType = "reference" ∧ it ≠ 0
        · simp only [bfsLoop, hf, if_pos h1]
          exact ih _ _ _ hw
        · by_cases h2 : cur.cellType = "reference" ∧ it = 0
          · simp only [bfsLoop, hf, if_neg h1, if_pos h2]
            exact ih _ _ _ (foldVisit_nomove _ _ hw).2
          · simp only [bfsLoop, hf, if_neg h1, if_neg h2]
            exact ih _ _ _ (foldVisit_nomove _ _ hw).2

/-! ### Reference cells are pinned by the correction pass -/

lemma correctEdge_ref_nomove {u w : ℕ} {cs : List CellRec} {conn : Conn}
    (hu : u ≠ w) (href : typeOf cs w = some "reference") :
    posOf (correctEdge u cs conn) w = posOf cs w := by
  rcases h1 : findCell cs conn.cellId with _ | cell2
  · simp [correctEdge, h1]
  · rcases h2 : findCell cs u with _ | c1
    · simp [correctEdge, h1, h2]
    · by_cases h3 : cell2.cellType = "reference"
      · simp only [correctEdge, h1, h2, if_pos h3]
        exact posOf_updateCell_ne (Ne.symm hu)
      · have hid : conn.cellId ≠ w := by
          intro he
          rw [he] at h1
          have : typeOf cs w = some cell2.cellType := by
            simp [typeOf, h1]
          rw [href] at this
          exact h3 (Option.some.inj this).symm
        simp only [correctEdge, h1, h2, if_neg h3]
        split
        · split
          · exact posOf_updateCell_ne (Ne.symm hid)
          · rfl
        · rfl

lemma correctCell_ref_pin {fc : List (ℕ × List Conn)} {rest : ℕ → Vec3}
    {cells : List CellRec} {w : ℕ}
    (href : typeOf cells w = some "reference") :
    posOf (correctCell fc rest cells w) w = some (rest w) := by
  rcases hf : findCell cells w with _ | cell1
  · simp [typeOf, hf] at href
  · have ht : cell1.cellType = "reference" := by
      simp [typeOf, hf] at href
      exact href
    simp only [correctCell, hf, if_pos ht]
    exact posOf_updateCell_self hf

lemma foldCorrectEdge_ref_nomove {u w : ℕ} (hu : u ≠ w) :
    ∀ (conns : List Conn) (cs : List CellRec), typeOf cs w = some "reference" →
      posOf (conns.foldl (correctEdge u) cs) w = posOf cs w := by
  intro conns
  induction conns with
  | nil => intro cs _; rfl
  | cons c rest ih =>
    intro cs href
    rw [List.foldl_cons]
    have href2 : typeOf (correctEdge u cs c) w = some "reference" :=
      (typeOf_eq_of_shapeS (correctEdge_shapeS u cs c) w).trans href
    rw [ih _ href2, correctEdge_ref_nomove hu href]

lemma correctCell_ref_other {fc : List (ℕ × List Conn)} {rest : ℕ → Vec3}
    {cells : List CellRec} {u w : ℕ}
    (hu : u ≠ w) (href : typeOf cells w = some "reference") :
    posOf (correctCell fc rest cells u) w = posOf cells w := by
  rcases hf : findCell cells u with _ | cell1
  · simp [correctCell, hf]
  · by_cases h1 : cell1.cellType = "reference"
    · simp only [correctCell, hf, if_pos h1]
      exact posOf_updateCell_ne (Ne.symm hu)
    · simp only [correctCell, hf, if_neg h1]
      exact foldCorrectEdge_ref_nomove hu _ _ href

lemma foldCorrectCell_ref_pin {fc : List (ℕ × List Conn)} {rest : ℕ → Vec3} {w : ℕ} :
    ∀ (us : List ℕ) (cells : List CellRec),
      typeOf cells w = some "reference" →
      (posOf cells w = some (rest w) ∨ w ∈ us) →
      posOf (us.foldl (correctCell fc rest) cells) w = some (rest w) := by
  intro us
  induction us with
  | nil =>
    intro cells _ h
    rcases h with h | h
    · exact h
    · cases h
  | cons u us' ih =>
    intro cells href h
    rw [List.foldl_cons]
    have hsh := correctCell_shapeS fc rest cells u
    have href2 : typeOf (correctCell fc rest cells u) w = some "reference" :=
      (typeOf_eq_of_shapeS hsh w).trans href
    by_cases hu : u = w
    · subst hu
      exact ih _ href2 (Or.inl (correctCell_ref_pin href))
    · refine ih _ href2 ?_
      rcases h with h | h
      · exact Or.inl ((correctCell_ref_other hu href).trans h)
      · rcases List.mem_cons.mp h with h | h
        · exact absurd h.symm hu
        · exact Or.inr h

lemma verifyAndCorrect_ref_pin {fc : List (ℕ × List Conn)} {rest : ℕ → Vec3}
    {cells : List CellRec} {w : ℕ}
    (href : typeOf cells w = some "reference") :
    posOf (verifyAndCorrect fc rest cells) w = some (rest w) := by
  unfold verifyAndCorrect
  rcases hf : findCell cells w with _ | c
  · simp [typeOf, hf] at href
  · refine foldCorrectCell_ref_pin _ _ href (Or.inr ?_)
    obtain ⟨hmem, huid⟩ := findCell_mem hf
    exact huid ▸ List.mem_map_of_mem (·.uuid) hmem

/-! ### C1: anchor immobility, as the code actually behaves -/

/-- Cells used by the C1 counterexample and witness: two floor-resting
cells, the second a cardiomyocyte, with no reference block. -/
def pairCells : List CellRec :=
  [⟨0, "epithelial", ⟨0, 1/10, 0⟩, 1⟩, ⟨1, "cardiomyocyte", ⟨1/5, 1/10, 0⟩, 1⟩]

def pairRest : ℕ → Vec3 := fun u => if u = 0 then ⟨0, 1/10, 0⟩ else ⟨1/5, 1/10, 0⟩

/-- A reference block with one epithelial neighbour, both off the floor. -/
def refPairCells : List CellRec :=
  [⟨0, "reference", ⟨0, 3/10, 0⟩, 1⟩, ⟨1, "epithelial", ⟨1/5, 3/10, 0⟩, 1⟩]

def refPairRest : ℕ → Vec3 := fun u => if u = 0 then ⟨0, 3/10, 0⟩ else ⟨1/5, 3/10, 0⟩

set_option maxHeartbeats 1000000 in
/-- C1 counterexample: with no Anchor-typed cell, both floor-resting cells
are anchors in the sense of the claim, yet at the end of the first
relaxation pass of a frame whose oscillation factor is 0.6 the second
anchor sits at x = 4/25, displaced from its rest x = 1/5 by the correction
pass.  This refutes the claim that every anchor equals its rest position at
the end of every relaxation pass. -/
theorem c1_floor_anchor_displaced :
    (∀ c ∈ pairCells, c.cellType ≠ "reference") ∧
    |(pairRest 1).y - cellSize/2| < tolerance ∧
    posOf (relaxPass (buildConnections pairCells) pairRest 0
      (updateScales (3/5) pairCells)) 1 = some ⟨4/25, 1/10, 0⟩ ∧
    posOf (relaxPass (buildConnections pairCells) pairRest 0
      (updateScales (3/5) pairCells)) 1 ≠ some (pairRest 1) := by
  have h3 : posOf (relaxPass (buildConnections pairCells) pairRest 0
      (updateScales (3/5) pairCells)) 1 = some ⟨4/25, 1/10, 0⟩ := by
    norm_num [relaxPass, bfsPhase, sweepPhase, bfsLoop, sweepInner, sweepOuter,
      visitOneConnection, verifyAndCorrect, correctCell, correctEdge, anchorCellsOf,
      buildConnections, connsFor, getConns, findCell, updateCell, updateScales,
      posOf, clampY, deviatesB, sqrtGtB, sqrtLtB, distSq, vadd, smul, vneg,
      cellSize, tolerance, faceDirections, pairCells, pairRest,
      str_ec, str_er, str_cc, str_cr, str_rc, str_rr, str_ee,
      List.foldl, List.find?, List.filterMap, List.flatMap, List.eraseP, List.filter]
  refine ⟨by decide, by norm_num [pairRest, cellSize, tolerance], h3, ?_⟩
  rw [h3]
  intro hcontra
  rw [show pairRest 1 = ⟨1/5, 1/10, 0⟩ by norm_num [pairRest]] at hcontra
  simp only [Option.some.injEq, Vec3.mk.injEq] at hcontra
  norm_num at hcontra

/-- C1 amended: at the end of every relaxation pass every Anchor-typed
(`reference`) cell sits exactly at its rest position (the correction pass
re-pins it); and when no Anchor-typed cell exists, the BFS propagation and
the disconnected-component sweep never move an anchor (anchors are marked
processed before the traversal) — but the correction pass may still
displace a floor-resting anchor, as the counterexample shows. -/
theorem c1_anchor_immobility_amended (fc : List (ℕ × List Conn)) (rest : ℕ → Vec3)
    (it : ℕ) (cells : List CellRec) :
    (∀ w, typeOf cells w = some "reference" →
      posOf (relaxPass fc rest it cells) w = some (rest w)) ∧
    ((∀ c ∈ cells, c.cellType ≠ "reference") →
      ∀ w ∈ (anchorCellsOf rest cells).map (·.uuid),
        posOf (sweepPhase fc (bfsPhase fc rest it cells).1
          (bfsPhase fc rest it cells).2).1 w = posOf cells w) := by
  constructor
  · intro w href
    unfold relaxPass
    refine verifyAndCorrect_ref_pin ?_
    have e2 : ((sweepPhase fc (bfsPhase fc rest it cells).1
        (bfsPhase fc rest it cells).2).1).map shapeS =
          ((bfsPhase fc rest it cells).1).map shapeS := by
      unfold sweepPhase
      exact sweepOuter_shapeS fc _ _ _ _
    have e1 : ((bfsPhase fc rest it cells).1).map shapeS = cells.map shapeS := by
      unfold bfsPhase
      exact bfsLoop_shapeS fc rest it _ _ _ _
    rw [typeOf_eq_of_shapeS e2 w, typeOf_eq_of_shapeS e1 w]
    exact href
  · intro hnr w hw
    have hbfs : posOf (bfsPhase fc rest it cells).1 w = posOf cells w := by
      unfold bfsPhase
      exact bfsLoop_noref_nomove fc rest it _ cells _ _ hnr hw
    have hpr : w ∈ (bfsPhase fc rest it cells).2 := by
      unfold bfsPhase
      exact bfsLoop_pr_mono fc rest it _ cells _ _ hw
    unfold sweepPhase
    rw [sweepOuter_nomove fc _ _ _ _ hpr, hbfs]

/-- Witness for the amended C1: the reference block of a concrete two-cell
chain is pinned to its rest position by a relaxation pass, and in a concrete
structure without reference blocks a floor anchor is untouched by the BFS
and sweep phases. -/
theorem c1_anchor_immobility_amended_witness :
    typeOf refPairCells 0 = some "reference" ∧
    posOf (relaxPass (buildConnections refPairCells) refPairRest 2 refPairCells) 0 =
      some (refPairRest 0) ∧
    (∀ c ∈ pairCells, c.cellType ≠ "reference") ∧
    0 ∈ (anchorCellsOf pairRest pairCells).map (·.uuid) ∧
    posOf (sweepPhase (buildConnections pairCells)
        (bfsPhase (buildConnections pairCells) pairRest 2 pairCells).1
        (bfsPhase (buildConnections pairCells) pairRest 2 pairCells).2).1 0 =
      posOf pairCells 0 := by
  have h1 : typeOf refPairCells 0 = some "reference" := by decide
  have h2 : ∀ c ∈ pairCells, c.cellType ≠ "reference" := by decide
  have h3 : 0 ∈ (anchorCellsOf pairRest pairCells).map (·.uuid) := by
    norm_num [anchorCellsOf, pairCells, pairRest, cellSize, tolerance,
      str_ec, str_er, str_cr, List.filter]
  exact ⟨h1,
    (c1_anchor_immobility_amended (buildConnections refPairCells)
      refPairRest 2 refPairCells).1 0 h1,
    h2, h3,
    (c1_anchor_immobility_amended (buildConnections pairCells)
      pairRest 2 pairCells).2 h2 0 h3⟩

/-! ### Cells with no adjacency edges are never repositioned -/

lemma visitOne_target_nomove {u w : ℕ} {st : List CellRec × List ℕ × List ℕ}
    {conn : Conn} (hne : conn.cellId ≠ w) :
    posOf (visitOneConnection u st conn).1 w = posOf st.1 w := by
  obtain ⟨cells, pr, nq⟩ := st
  rcases h1 : findCell cells conn.cellId with _ | nb
  · simp only [visitOneConnection, h1]
  · rcases h2 : findCell cells u with _ | cur
    · simp only [visitOneConnection, h1, h2]
    · by_cases hc : conn.cellId ∈ pr ∨ nb.cellType = "reference"
      · simp only [visitOneConnection, h1, h2, if_pos hc]
      · simp only [visitOneConnection, h1, h2, if_neg hc]
        exact posOf_updateCell_ne (Ne.symm hne)

lemma foldVisit_target_nomove {u w : ℕ} :
    ∀ (conns : List Conn) (st : List CellRec × List ℕ × List ℕ),
      (∀ conn ∈ conns, conn.cellId ≠ w) →
      posOf ((conns.foldl (visitOneConnection u) st).1) w = posOf st.1 w := by
  intro conns
  induction conns with
  | nil => intro st _; rfl
  | cons c cs ih =>
    intro st H
    rw [List.foldl_cons]
    rw [ih _ fun conn hc => H conn (List.mem_cons_of_mem _ hc),
      visitOne_target_nomove (H c (List.mem_cons_self _ _))]

lemma bfsLoop_target_nomove (fc : List (ℕ × List Conn)) (rest : ℕ → Vec3) (it : ℕ) {w : ℕ}
    (HF : ∀ u conn, conn ∈ getConns fc u → conn.cellId ≠ w) :
    ∀ (fuel : ℕ) (cells : List CellRec) (pr q : List ℕ),
      typeOf cells w ≠ some "reference" →
      posOf (bfsLoop fc rest it fuel cells pr q).1 w = posOf cells w := by
  intro fuel
  induction fuel with
  | zero => intro cells pr q _; rfl
  | succ n ih =>
    intro cells pr q htype
    cases q with
    | nil => rfl
    | cons u q' =>
      rcases hf : findCell cells u with _ | cur
      · simp only [bfsLoop, hf]
        exact ih cells pr q' htype
      · by_cases h1 : cur.cellType = "reference" ∧ it ≠ 0
        · simp only [bfsLoop, hf, if_pos h1]
          exact ih cells pr q' htype
        · by_cases h2 : cur.cellType = "reference" ∧ it = 0
          · simp only [bfsLoop, hf, if_neg h1, if_pos h2]
            have huw : u ≠ w := by
              intro he
              subst he
              exact htype (by simp [typeOf, hf, h2.1])
            have hc1 : posOf (updateCell cells u (rest u)) w = posOf cells w :=
              posOf_updateCell_ne (Ne.symm huw)
            have hsh : ((updateCell cells u (rest u))).map shapeS = cells.map shapeS :=
              updateCell_shapeS cells u (rest u)
            have hsh2 := foldlVisit_shapeS u (getConns fc u) (updateCell cells u (rest u), pr, [])
            have htype2 : typeOf ((getConns fc u).foldl (visitOneConnection u)
                (updateCell cells u (rest u), pr, [])).1 w ≠ some "reference" := by
              rw [typeOf_eq_of_shapeS hsh2 w, typeOf_eq_of_shapeS hsh w]
              exact htype
            rw [ih _ _ _ htype2, foldVisit_target_nomove _ _ (fun conn hc => HF u conn hc), hc1]
          · simp only [bfsLoop, hf, if_neg h1, if_neg h2]
            have hsh2 := foldlVisit_shapeS u (getConns fc u) (cells, pr, [])
            have htype2 : typeOf ((getConns fc u).foldl (visitOneConnection u)
                (cells, pr, [])).1 w ≠ some "reference" := by
              rw [typeOf_eq_of_shapeS hsh2 w]
              exact htype
            rw [ih _ _ _ htype2, foldVisit_target_nomove _ _ (fun conn hc => HF u conn hc)]

lemma sweepInner_target_nomove (fc : List (ℕ × List Conn)) {w : ℕ}
    (HF : ∀ u conn, conn ∈ getConns fc u → conn.cellId ≠ w) :
    ∀ (fuel : ℕ) (cells : List CellRec) (pr : List ℕ) (unp : List CellRec) (q : List ℕ),
      posOf (sweepInner fc fuel cells pr unp q).1 w = posOf cells w := by
  intro fuel
  induction fuel with
  | zero => intro cells pr unp q; rfl
  | succ n ih =>
    intro cells pr unp q
    cases q with
    | nil => rfl
    | cons u q' =>
      rcases hf : findCell cells u with _ | cur
      · simp only [sweepInner, hf]
        exact ih cells pr unp q'
      · simp only [sweepInner, hf]
        rw [ih _ _ _ _, foldVisit_target_nomove _ _ (fun conn hc => HF u conn hc)]

lemma sweepOuter_target_nomove (fc : List (ℕ × List Conn)) {w : ℕ}
    (HF : ∀ u conn, conn ∈ getConns fc u → conn.cellId ≠ w) :
    ∀ (fuel : ℕ) (cells : List CellRec) (pr : List ℕ) (unp : List CellRec),
      posOf (sweepOuter fc fuel cells pr unp).1 w = posOf cells w := by
  intro fuel
  induction fuel with
  | zero => intro cells pr unp; rfl
  | succ n ih =>
    intro cells pr unp
    cases unp with
    | nil => rfl
    | cons start unp' =>
      simp only [sweepOuter]
      rw [ih _ _ _, sweepInner_target_nomove fc HF _ _ _ _ _]

lemma correctEdge_target_nomove {u w : ℕ} {cs : List CellRec} {conn : Conn}
    (hu : u ≠ w) (hne : conn.cellId ≠ w) :
    posOf (correctEdge u cs conn) w = posOf cs w := by
  rcases h1 : findCell cs conn.cellId with _ | cell2
  · simp only [correctEdge, h1]
  · rcases h2 : findCell cs u with _ | c1
    · simp only [correctEdge, h1, h2]
    · by_cases h3 : cell2.cellType = "reference"
      · simp only [correctEdge, h1, h2, if_pos h3]
        exact posOf_updateCell_ne (Ne.symm hu)
      · simp only [correctEdge, h1, h2, if_neg h3]
        split
        · split
          · exact posOf_updateCell_ne (Ne.symm hne)
          · rfl
        · rfl

lemma foldCorrectEdge_target_nomove {u w : ℕ} (hu : u ≠ w) :
    ∀ (conns : List Conn) (cs : List CellRec),
      (∀ conn ∈ conns, conn.cellId ≠ w) →
      posOf (conns.foldl (correctEdge u) cs) w = posOf cs w := by
  intro conns
  induction conns with
  | nil => intro cs _; rfl
  | cons c rest ih =>
    intro cs H
    rw [List.foldl_cons]
    rw [ih _ fun conn hc => H conn (List.mem_cons_of_mem _ hc),
      correctEdge_target_nomove hu (H c (List.mem_cons_self _ _))]

lemma correctCell_target_nomove {fc : List (ℕ × List Conn)} {rest : ℕ → Vec3}
    {cells : List CellRec} {u w : ℕ}
    (HF : ∀ v conn, conn ∈ getConns fc v → conn.cellId ≠ w)
    (hzero : getConns fc w = [])
    (htype : typeOf cells w ≠ some "reference") :
    posOf (correctCell fc rest cells u) w = posOf cells w := by
  rcases hf : findCell cells u with _ | cell1
  · simp only [correctCell, hf]
  · by_cases h1 : cell1.cellType = "reference"
    · have huw : u ≠ w := by
        intro he
        subst he
        exact htype (by simp [typeOf, hf, h1])
      simp only [correctCell, hf, if_pos h1]
      exact posOf_updateCell_ne (Ne.symm huw)
    · simp only [correctCell, hf, if_neg h1]
      by_cases huw : u = w
      · subst huw
        rw [hzero]
        rfl
      · exact foldCorrectEdge_target_nomove huw _ _ (fun conn hc => HF u conn hc)

lemma foldCorrectCell_target_nomove {fc : List (ℕ × List Conn)} {rest : ℕ → Vec3} {w : ℕ}
    (HF : ∀ v conn, conn ∈ getConns fc v → conn.cellId ≠ w)
    (hzero : getConns fc w = []) :
    ∀ (us : List ℕ) (cells : List CellRec),
      typeOf cells w ≠ some "reference" →
      posOf (us.foldl (correctCell fc rest) cells) w = posOf cells w := by
  intro us
  induction us with
  | nil => intro cells _; rfl
  | cons u us' ih =>
    intro cells htype
    rw [List.foldl_cons]
    have htype2 : typeOf (correctCell fc rest cells u) w ≠ some "reference" := by
      rw [typeOf_eq_of_shapeS (correctCell_shapeS fc rest cells u) w]
      exact htype
    rw [ih _ htype2, correctCell_target_nomove HF hzero htype]

lemma relaxPass_target_nomove {fc : List (ℕ × List Conn)} {rest : ℕ → Vec3} {it : ℕ}
    {cells : List CellRec} {w : ℕ}
    (HF : ∀ v conn, conn ∈ getConns fc v → conn.cellId ≠ w)
    (hzero : getConns fc w = [])
    (htype : typeOf cells w ≠ some "reference") :
    posOf (relaxPass fc rest it cells) w = posOf cells w := by
  have e1 : ((bfsPhase fc rest it cells).1).map shapeS = cells.map shapeS := by
    unfold bfsPhase
    exact bfsLoop_shapeS fc rest it _ _ _ _
  have e2 : ((sweepPhase fc (bfsPhase fc rest it cells).1
      (bfsPhase fc rest it cells).2).1).map shapeS =
        ((bfsPhase fc rest it cells).1).map shapeS := by
    unfold sweepPhase
    exact sweepOuter_shapeS fc _ _ _ _
  have t1 : typeOf (bfsPhase fc rest it cells).1 w ≠ some "reference" := by
    rw [typeOf_eq_of_shapeS e1 w]; exact htype
  have t2 : typeOf (sweepPhase fc (bfsPhase fc rest it cells).1
      (bfsPhase fc rest it cells).2).1 w ≠ some "reference" := by
    rw [typeOf_eq_of_shapeS e2 w]; exact t1
  unfold relaxPass
  unfold verifyAndCorrect
  rw [foldCorrectCell_target_nomove HF hzero _ _ t2]
  have hsweep : posOf (sweepPhase fc (bfsPhase fc rest it cells).1
      (bfsPhase fc rest it cells).2).1 w = posOf (bfsPhase fc rest it cells).1 w := by
    unfold sweepPhase
    exact sweepOuter_target_nomove fc HF _ _ _ _
  have hbfs : posOf (bfsPhase fc rest it cells).1 w = posOf cells w := by
    unfold bfsPhase
    exact bfsLoop_target_nomove fc rest it HF _ _ _ _ htype
  rw [hsweep, hbfs]

lemma getConns_mem_build {cells : List CellRec} {u : ℕ} {conn : Conn}
    (h : conn ∈ getConns (buildConnections cells) u) :
    ∃ a ∈ cells, conn ∈ connsFor cells a := by
  unfold getConns at h
  rcases hfind : (buildConnections cells).find? (fun p => p.1 = u) with _ | p
  · rw [hfind] at h
    cases h
  · rw [hfind] at h
    have hp : p ∈ buildConnections cells := List.mem_of_find?_eq_some hfind
    unfold buildConnections at hp
    obtain ⟨a, ha, he⟩ := List.mem_map.mp hp
    exact ⟨a, ha, by rw [← he] at h; exact h⟩

/-! ### C4: zero-edge cells -/

/-- A single cell floating off the dish floor, with no neighbours. -/
def floatCells : List CellRec := [⟨0, "epithelial", ⟨0, 3/10, 0⟩, 1⟩]

def floatRest : ℕ → Vec3 := fun _ => ⟨0, 3/10, 0⟩

/-- A single structural cell resting on the dish floor (Scenario A). -/
def scenACells : List CellRec := [⟨0, "epithelial", ⟨0, 1/10, 0⟩, 1⟩]

def scenARest : ℕ → Vec3 := fun _ => ⟨0, 1/10, 0⟩

/-- C4 counterexample: a lone cell at height 0.3 has zero adjacency edges,
yet the anchor selector returns the empty set for its structure — the code
has no zero-edge rule, so the claim that every zero-edge cell is included in
the anchor set is false. -/
theorem c4_zero_edge_not_anchor :
    getConns (buildConnections floatCells) 0 = [] ∧
    anchorCellsOf floatRest floatCells = [] := by
  constructor
  · decide
  · norm_num [anchorCellsOf, floatCells, floatRest, cellSize, tolerance,
      str_er, List.filter]
    rw [show decide (|(1:ℚ)/5| < 1/100) = false from by norm_num [abs]]

/-- C4 amended: a cell with zero adjacency edges is never repositioned by a
relaxation pass (it is unreachable by the BFS, the sweep and the correction
pass), although the anchor selector does not include it in the anchor set
unless it is Anchor-typed or floor-resting.  The floor-resting Scenario-A
cell is in the anchor set and keeps its position across all 5 iterations
(see the witness). -/
theorem c4_zero_edge_amended (cells : List CellRec) (rest : ℕ → Vec3) (it : ℕ)
    (c : CellRec) (hnd : (cells.map CellRec.uuid).Nodup) (hc : c ∈ cells)
    (hzero : getConns (buildConnections cells) c.uuid = [])
    (href : c.cellType ≠ "reference") :
    posOf (relaxPass (buildConnections cells) rest it cells) c.uuid =
      posOf cells c.uuid := by
  have HF : ∀ v conn, conn ∈ getConns (buildConnections cells) v →
      conn.cellId ≠ c.uuid := by
    intro v conn hconn hcontra
    obtain ⟨a, ha, hmem⟩ := getConns_mem_build hconn
    obtain ⟨v2, d⟩ := conn
    simp only at hcontra
    subst hcontra
    rw [mem_connsFor] at hmem
    obtain ⟨c2, hc2, hcu, hne, hd, hlt⟩ := hmem
    have : c2 = c := uuid_inj hnd hc2 hc hcu
    subst this
    have hback : Conn.mk a.uuid (vneg d) ∈ connsFor cells c2 := by
      rw [mem_connsFor]
      refine ⟨a, ha, rfl, fun h => hne h.symm, vneg_mem_faceDirections hd, ?_⟩
      rw [distSq_vneg_symm]
      exact hlt
    rw [getConns_build hnd hc2] at hzero
    rw [hzero] at hback
    cases hback
  have htype : typeOf cells c.uuid ≠ some "reference" := by
    rw [show typeOf cells c.uuid = some c.cellType by
      simp [typeOf, findCell_self hnd hc]]
    intro h
    exact href (Option.some.inj h)
  exact relaxPass_target_nomove HF hzero htype

/-- Witness for the amended C4: the floating zero-edge cell keeps its
position through a relaxation pass, and the Scenario-A floor cell is its own
anchor and keeps its position through a whole 5-iteration frame. -/
theorem c4_zero_edge_amended_witness :
    (floatCells.map CellRec.uuid).Nodup ∧
    (⟨0, "epithelial", ⟨0, 3/10, 0⟩, 1⟩ : CellRec) ∈ floatCells ∧
    getConns (buildConnections floatCells) 0 = [] ∧
    posOf (relaxPass (buildConnections floatCells) floatRest 0 floatCells) 0 =
      posOf floatCells 0 ∧
    0 ∈ (anchorCellsOf scenARest scenACells).map (·.uuid) ∧
    posOf (runFrame (buildConnections scenACells) scenARest 1 scenACells) 0 =
      some ⟨0, 1/10, 0⟩ := by
  refine ⟨by decide, List.mem_singleton.mpr rfl, by decide, ?_, ?_, ?_⟩
  · exact c4_zero_edge_amended floatCells floatRest 0
      ⟨0, "epithelial", ⟨0, 3/10, 0⟩, 1⟩ (by decide) (List.mem_singleton.mpr rfl)
      (by decide) (by decide)
  · norm_num [anchorCellsOf, scenACells, scenARest, cellSize, tolerance,
      str_er, List.filter]
  · norm_num [runFrame, MAX_ITERATIONS, range_five, relaxPass, bfsPhase, sweepPhase,
      bfsLoop, sweepInner, sweepOuter, visitOneConnection, verifyAndCorrect,
      correctCell, correctEdge, anchorCellsOf, buildConnections, connsFor, getConns,
      findCell, updateCell, updateScales, posOf, clampY, deviatesB, sqrtGtB, sqrtLtB,
      distSq, vadd, smul, vneg, cellSize, tolerance, faceDirections,
      scenACells, scenARest, str_ec, str_er, str_cc, str_cr, str_rc, str_rr, str_ee,
      List.foldl, List.find?, List.filterMap, List.flatMap, List.eraseP, List.filter]

/-! ### C6: the correction pass and its fixed points -/

/-- The edge from the cell with uuid `u` to its recorded neighbour is
exactly satisfied: the neighbour sits precisely at the scaled face-to-face
offset along the edge direction. -/
def edgeExactB (cells : List CellRec) (conn : Conn) (u : ℕ) : Bool :=
  match findCell cells u, findCell cells conn.cellId with
  | some c, some nb =>
    decide (nb.pos =
      vadd c.pos (smul (cellSize/2 * c.scl + cellSize/2 * nb.scl) conn.direction))
  | _, _ => true

lemma updateCell_id {cells : List CellRec} {u : ℕ} {p : Vec3}
    (h : ∀ c ∈ cells, c.uuid = u → c.pos = p) : updateCell cells u p = cells := by
  unfold updateCell
  conv_rhs => rw [← List.map_id cells]
  refine List.map_congr_left fun c hc => ?_
  by_cases he : c.uuid = u
  · rw [if_pos he, ← h c hc he]
    rfl
  · rw [if_neg he]
    rfl

lemma clampY_id {v : Vec3} (h : cellSize/2 ≤ v.y) : clampY v = v := by
  cases v
  simp only [clampY]
  rw [max_eq_right h]

lemma vadd_offset_cancel (v : Vec3) (e : ℚ) (d : Vec3) :
    vadd (vadd v (smul e d)) (smul e (vneg d)) = v := by
  cases v; cases d
  simp only [vadd, smul, vneg, Vec3.mk.injEq]
  refine ⟨by ring, by ring, by ring⟩

lemma distSq_offset (v : Vec3) (e : ℚ) (d : Vec3) :
    distSq v (vadd v (smul e d)) = e^2 * (d.x^2 + d.y^2 + d.z^2) := by
  cases v; cases d
  simp only [distSq, vadd, smul]
  ring

lemma faceDir_normSq {d : Vec3} (h : d ∈ faceDirections) :
    d.x^2 + d.y^2 + d.z^2 = 1 := by
  simp only [faceDirections, List.mem_cons, List.not_mem_nil, or_false] at h
  rcases h with rfl | rfl | rfl | rfl | rfl | rfl <;> norm_num

lemma deviatesB_exact {e : ℚ} (he : 0 ≤ e) : deviatesB (e^2) e = false := by
  unfold deviatesB sqrtGtB sqrtLtB
  simp only [Bool.or_eq_false_iff, Bool.and_eq_false_iff, decide_eq_false_iff_not,
    not_lt]
  refine ⟨⟨by linarith, by nlinarith⟩, ?_⟩
  by_cases hgt : 0 < e - 1/1000
  · right
    nlinarith
  · left
    linarith [not_lt.mp hgt]

lemma foldl_const {α β : Type} (f : α → β → α) (a : α) (l : List β)
    (h : ∀ x ∈ l, f a x = a) : l.foldl f a = a := by
  induction l with
  | nil => rfl
  | cons x xs ih =>
    rw [List.foldl_cons, h x (List.mem_cons_self _ _)]
    exact ih fun y hy => h y (List.mem_cons_of_mem _ hy)

lemma getConns_entry {fc : List (ℕ × List Conn)} {u : ℕ} {conn : Conn}
    (h : conn ∈ getConns fc u) : ∃ p ∈ fc, p.1 = u ∧ conn ∈ p.2 := by
  unfold getConns at h
  rcases hfind : fc.find? (fun p => p.1 = u) with _ | p
  · rw [hfind] at h
    cases h
  · rw [hfind] at h
    refine ⟨p, List.mem_of_find?_eq_some hfind, ?_, h⟩
    have := List.find?_some hfind
    simpa using this

lemma correctEdge_exact_id {cells : List CellRec}
    {u : ℕ} {conn : Conn} {cell1 : CellRec}
    (hnd : (cells.map CellRec.uuid).Nodup)
    (hf : findCell cells u = some cell1)
    (hdir : conn.direction ∈ faceDirections)
    (hsat : edgeExactB cells conn u = true)
    (hscl : ∀ c ∈ cells, 0 ≤ c.scl)
    (hy : FloorOK cells) :
    correctEdge u cells conn = cells := by
  rcases h1 : findCell cells conn.cellId with _ | nb
  · simp only [correctEdge, h1]
  · unfold edgeExactB at hsat
    rw [hf, h1, decide_eq_true_eq] at hsat
    have hmem1 := (findCell_mem hf).1
    have hmemnb := (findCell_mem h1).1
    have he0 : (0:ℚ) ≤ cellSize/2 * cell1.scl + cellSize/2 * nb.scl := by
      have := hscl cell1 hmem1
      have := hscl nb hmemnb
      have hcs : (0:ℚ) ≤ cellSize/2 := by norm_num [cellSize]
      positivity
  -- hsat : nb.pos = cell1.pos + e * dir
    by_cases h3 : nb.cellType = "reference"
    · simp only [correctEdge, h1, hf, if_pos h3]
      rw [hsat, vadd_offset_cancel, clampY_id (hy cell1 hmem1)]
      refine updateCell_id fun c hc hcu => ?_
      rw [uuid_inj hnd hc hmem1 (hcu.trans (findCell_mem hf).2.symm)]
    · simp only [correctEdge, h1, hf, if_neg h3]
      rw [hsat, distSq_offset, faceDir_normSq hdir, mul_one,
        deviatesB_exact he0]
      simp

lemma correctCell_exact_id {fc : List (ℕ × List Conn)} {rest : ℕ → Vec3}
    {cells : List CellRec} {u : ℕ}
    (hnd : (cells.map CellRec.uuid).Nodup)
    (hdir : ∀ p ∈ fc, ∀ conn ∈ p.2, conn.direction ∈ faceDirections)
    (hsat : ∀ p ∈ fc, ∀ conn ∈ p.2, edgeExactB cells conn p.1 = true)
    (hscl : ∀ c ∈ cells, 0 ≤ c.scl)
    (hy : FloorOK cells)
    (href : ∀ c ∈ cells, c.cellType = "reference" → c.pos = rest c.uuid) :
    correctCell fc rest cells u = cells := by
  rcases hf : findCell cells u with _ | cell1
  · simp only [correctCell, hf]
  · obtain ⟨hmem1, huid1⟩ := findCell_mem hf
    by_cases h1 : cell1.cellType = "reference"
    · simp only [correctCell, hf, if_pos h1]
      refine updateCell_id fun c hc hcu => ?_
      rw [uuid_inj hnd hc hmem1 (hcu.trans huid1.symm)]
      rw [href cell1 hmem1 h1, huid1]
    · simp only [correctCell, hf, if_neg h1]
      refine foldl_const _ _ _ fun conn hconn => ?_
      obtain ⟨p, hp, hpu, hpc⟩ := getConns_entry hconn
      exact correctEdge_exact_id hnd hf (hdir p hp conn hpc)
        (hpu ▸ hsat p hp conn hpc) hscl hy

/-- C6 amended: a state in which every recorded edge is exactly satisfied,
every reference cell sits at its rest position, all scales are nonnegative
and all cells respect the floor, is a fixed point of the correction pass.
(The claim as stated — that the output of one correction pass is always such
a fixed point — is refuted by the counterexample.) -/
theorem c6_correction_fixed_point_amended (fc : List (ℕ × List Conn))
    (rest : ℕ → Vec3) (cells : List CellRec)
    (hnd : (cells.map CellRec.uuid).Nodup)
    (hdir : ∀ p ∈ fc, ∀ conn ∈ p.2, conn.direction ∈ faceDirections)
    (hsat : ∀ p ∈ fc, ∀ conn ∈ p.2, edgeExactB cells conn p.1 = true)
    (hscl : ∀ c ∈ cells, 0 ≤ c.scl)
    (hy : FloorOK cells)
    (href : ∀ c ∈ cells, c.cellType = "reference" → c.pos = rest c.uuid) :
    verifyAndCorrect fc rest cells = cells := by
  unfold verifyAndCorrect
  exact foldl_const _ _ _ fun u _ =>
    correctCell_exact_id hnd hdir hsat hscl hy href

/-- A 4-cycle of floor-resting cells, one of them a cardiomyocyte. -/
def sqCells : List CellRec :=
  [⟨0, "epithelial", ⟨0, 1/10, 0⟩, 1⟩, ⟨1, "cardiomyocyte", ⟨1/5, 1/10, 0⟩, 1⟩,
   ⟨2, "epithelial", ⟨1/5, 1/10, 1/5⟩, 1⟩, ⟨3, "epithelial", ⟨0, 1/10, 1/5⟩, 1⟩]

def sqRest : ℕ → Vec3 := fun u =>
  if u = 0 then ⟨0, 1/10, 0⟩ else if u = 1 then ⟨1/5, 1/10, 0⟩
  else if u = 2 then ⟨1/5, 1/10, 1/5⟩ else ⟨0, 1/10, 1/5⟩

/-- The square state reached in the first frame (oscillation factor 0.6)
after the BFS and sweep phases of iteration 0, then one correction pass. -/
def sqOnce : List CellRec :=
  verifyAndCorrect (buildConnections sqCells) sqRest
    (sweepPhase (buildConnections sqCells)
      (bfsPhase (buildConnections sqCells) sqRest 0 (updateScales (3/5) sqCells)).1
      (bfsPhase (buildConnections sqCells) sqRest 0 (updateScales (3/5) sqCells)).2).1

/-- A second correction pass on top of `sqOnce`, with no intervening BFS. -/
def sqTwice : List CellRec := verifyAndCorrect (buildConnections sqCells) sqRest sqOnce

set_option maxHeartbeats 4000000 in
/-- C6 counterexample: on the 4-cycle with a contracted actuator, the state
produced by one correction pass is not a fixed point — a second correction
pass with no intervening BFS moves the actuator cell from (4/25, 1/10, 0)
to (3/25, 1/10, -1/25).  The input state is reachable: it is the state of
the first frame after the BFS and sweep of iteration 0 at elapsed time 0
(oscillation factor 0.6). -/
theorem c6_correction_not_idempotent :
    posOf sqOnce 1 = some ⟨4/25, 1/10, 0⟩ ∧
    posOf sqTwice 1 = some ⟨3/25, 1/10, -1/25⟩ ∧
    posOf sqTwice 1 ≠ posOf sqOnce 1 := by
  have h1 : posOf sqOnce 1 = some ⟨4/25, 1/10, 0⟩ := by
    norm_num [sqOnce, bfsPhase, sweepPhase, bfsLoop, sweepInner, sweepOuter,
      visitOneConnection, verifyAndCorrect, correctCell, correctEdge, anchorCellsOf,
      buildConnections, connsFor, getConns, findCell, updateCell, updateScales,
      posOf, clampY, deviatesB, sqrtGtB, sqrtLtB, distSq, vadd, smul, vneg,
      cellSize, tolerance, faceDirections, sqCells, sqRest,
      str_ec, str_er, str_cc, str_cr, str_rc, str_rr, str_ee,
      List.foldl, List.find?, List.filterMap, List.flatMap, List.eraseP, List.filter]
  have h2 : posOf sqTwice 1 = some ⟨3/25, 1/10, -1/25⟩ := by
    norm_num [sqTwice, sqOnce, bfsPhase, sweepPhase, bfsLoop, sweepInner, sweepOuter,
      visitOneConnection, verifyAndCorrect, correctCell, correctEdge, anchorCellsOf,
      buildConnections, connsFor, getConns, findCell, updateCell, updateScales,
      posOf, clampY, deviatesB, sqrtGtB, sqrtLtB, distSq, vadd, smul, vneg,
      cellSize, tolerance, faceDirections, sqCells, sqRest,
      str_ec, str_er, str_cc, str_cr, str_rc, str_rr, str_ee,
      List.foldl, List.find?, List.filterMap, List.flatMap, List.eraseP, List.filter]
  refine ⟨h1, h2, ?_⟩
  rw [h1, h2]
  intro hcontra
  simp only [Option.some.injEq, Vec3.mk.injEq] at hcontra
  norm_num at hcontra

/-- Two floor-resting epithelial cells at rest: every recorded edge is
exactly satisfied, so the state is a fixed point of the correction pass. -/
def exactPairCells : List CellRec :=
  [⟨0, "epithelial", ⟨0, 1/10, 0⟩, 1⟩, ⟨1, "epithelial", ⟨1/5, 1/10, 0⟩, 1⟩]

def exactPairRest : ℕ → Vec3 := fun u => if u = 0 then ⟨0, 1/10, 0⟩ else ⟨1/5, 1/10, 0⟩

/-- Witness for the amended C6 at a concrete exactly-satisfied state. -/
theorem c6_correction_fixed_point_amended_witness :
    (exactPairCells.map CellRec.uuid).Nodup ∧
    (∀ p ∈ buildConnections exactPairCells, ∀ conn ∈ p.2,
      conn.direction ∈ faceDirections) ∧
    (∀ p ∈ buildConnections exactPairCells, ∀ conn ∈ p.2,
      edgeExactB exactPairCells conn p.1 = true) ∧
    (∀ c ∈ exactPairCells, 0 ≤ c.scl) ∧
    FloorOK exactPairCells ∧
    (∀ c ∈ exactPairCells, c.cellType = "reference" → c.pos = exactPairRest c.uuid) ∧
    verifyAndCorrect (buildConnections exactPairCells) exactPairRest exactPairCells =
      exactPairCells := by
  have hfc : buildConnections exactPairCells =
      [(0, [⟨1, ⟨1, 0, 0⟩⟩]), (1, [⟨0, ⟨-1, 0, 0⟩⟩])] := by
    norm_num [buildConnections, connsFor, exactPairCells, distSq, vadd, smul,
      cellSize, tolerance, faceDirections, List.filterMap, List.flatMap]
  have hnd : (exactPairCells.map CellRec.uuid).Nodup := by decide
  have hdir : ∀ p ∈ buildConnections exactPairCells, ∀ conn ∈ p.2,
      conn.direction ∈ faceDirections := by
    rw [hfc]
    intro p hp conn hc
    simp only [List.mem_cons, List.not_mem_nil, or_false] at hp
    rcases hp with rfl | rfl <;>
      simp only [List.mem_cons, List.not_mem_nil, or_false] at hc <;>
        rw [hc] <;> simp [faceDirections]
  have hsat : ∀ p ∈ buildConnections exactPairCells, ∀ conn ∈ p.2,
      edgeExactB exactPairCells conn p.1 = true := by
    rw [hfc]
    intro p hp conn hc
    simp only [List.mem_cons, List.not_mem_nil, or_false] at hp
    rcases hp with rfl | rfl <;>
      simp only [List.mem_cons, List.not_mem_nil, or_false] at hc <;> rw [hc] <;>
        norm_num [edgeExactB, exactPairCells, findCell, vadd, smul, cellSize,
          List.find?]
  have hscl : ∀ c ∈ exactPairCells, 0 ≤ c.scl := by
    intro c hc
    simp only [exactPairCells, List.mem_cons, List.not_mem_nil, or_false] at hc
    rcases hc with rfl | rfl <;> norm_num
  have hy : FloorOK exactPairCells := by
    intro c hc
    simp only [exactPairCells, List.mem_cons, List.not_mem_nil, or_false] at hc
    rcases hc with rfl | rfl <;> norm_num [cellSize]
  have href : ∀ c ∈ exactPairCells, c.cellType = "reference" →
      c.pos = exactPairRest c.uuid := by
    intro c hc habs
    simp only [exactPairCells, List.mem_cons, List.not_mem_nil, or_false] at hc
    rcases hc with rfl | rfl <;> simp at habs
  exact ⟨hnd, hdir, hsat, hscl, hy, href,
    c6_correction_fixed_point_amended (buildConnections exactPairCells)
      exactPairRest exactPairCells hnd hdir hsat hscl hy href⟩

/-! ### C2: the BFS placement formula and Scenario B -/

/-- Scenario B: A (Structural, floor-resting) and B (Actuator) at
A + (0, 0, 0.2). -/
def scenBCells : List CellRec :=
  [⟨0, "epithelial", ⟨0, 1/10, 0⟩, 1⟩, ⟨1, "cardiomyocyte", ⟨0, 1/10, 1/5⟩, 1⟩]

def scenBRest : ℕ → Vec3 := fun u => if u = 0 then ⟨0, 1/10, 0⟩ else ⟨0, 1/10, 1/5⟩

set_option maxHeartbeats 2000000 in
/-- C2: when the propagation step processes an edge to a neighbour that is
present, not yet processed and not a reference, it places the neighbour at
`currentPosition(cell) + direction * (cubeSize/2 * scale(cell) +
cubeSize/2 * scale(neighbour))` with the y-coordinate floor-clamped, and
marks it processed and enqueued; consequently in Scenario B, after a frame
at oscillation factor 1.0 the two cells end at distance 1/5 = 0.2 apart
(B - A = (0,0,1/5)), and after a frame at factor 0.6 at distance
4/25 = 0.16 (B - A = (0,0,4/25)), while A stays at its rest position. -/
theorem c2_bfs_placement :
    (∀ (u : ℕ) (cells : List CellRec) (pr nq : List ℕ) (conn : Conn)
        (cur nb : CellRec),
      findCell cells u = some cur → findCell cells conn.cellId = some nb →
      conn.cellId ∉ pr → nb.cellType ≠ "reference" →
      visitOneConnection u (cells, pr, nq) conn =
        (updateCell cells conn.cellId
          (clampY (vadd cur.pos
            (smul (cellSize/2 * cur.scl + cellSize/2 * nb.scl) conn.direction))),
         conn.cellId :: pr, nq ++ [conn.cellId])) ∧
    posOf (runFrame (buildConnections scenBCells) scenBRest 1 scenBCells) 1 =
      some ⟨0, 1/10, 1/5⟩ ∧
    posOf (runFrame (buildConnections scenBCells) scenBRest 1 scenBCells) 0 =
      some ⟨0, 1/10, 0⟩ ∧
    posOf (runFrame (buildConnections scenBCells) scenBRest (3/5) scenBCells) 1 =
      some ⟨0, 1/10, 4/25⟩ ∧
    posOf (runFrame (buildConnections scenBCells) scenBRest (3/5) scenBCells) 0 =
      some ⟨0, 1/10, 0⟩ := by
  refine ⟨?_, ?_, ?_, ?_, ?_⟩
  · intro u cells pr nq conn cur nb h1 h2 h3 h4
    simp only [visitOneConnection, h1, h2]
    rw [if_neg (by
      intro h
      rcases h with h | h
      · exact h3 h
      · exact h4 h)]
  · norm_num [runFrame, MAX_ITERATIONS, range_five, relaxPass, bfsPhase, sweepPhase,
      bfsLoop, sweepInner, sweepOuter, visitOneConnection, verifyAndCorrect,
      correctCell, correctEdge, anchorCellsOf, buildConnections, connsFor, getConns,
      findCell, updateCell, updateScales, posOf, clampY, deviatesB, sqrtGtB, sqrtLtB,
      distSq, vadd, smul, vneg, cellSize, tolerance, faceDirections,
      scenBCells, scenBRest, str_ec, str_er, str_cc, str_cr, str_rc, str_rr, str_ee,
      List.foldl, List.find?, List.filterMap, List.flatMap, List.eraseP, List.filter]
  · norm_num [runFrame, MAX_ITERATIONS, range_five, relaxPass, bfsPhase, sweepPhase,
      bfsLoop, sweepInner, sweepOuter, visitOneConnection, verifyAndCorrect,
      correctCell, correctEdge, anchorCellsOf, buildConnections, connsFor, getConns,
      findCell, updateCell, updateScales, posOf, clampY, deviatesB, sqrtGtB, sqrtLtB,
      distSq, vadd, smul, vneg, cellSize, tolerance, faceDirections,
      scenBCells, scenBRest, str_ec, str_er, str_cc, str_cr, str_rc, str_rr, str_ee,
      List.foldl, List.find?, List.filterMap, List.flatMap, List.eraseP, List.filter]
  · norm_num [runFrame, MAX_ITERATIONS, range_five, relaxPass, bfsPhase, sweepPhase,
      bfsLoop, sweepInner, sweepOuter, visitOneConnection, verifyAndCorrect,
      correctCell, correctEdge, anchorCellsOf, buildConnections, connsFor, getConns,
      findCell, updateCell, updateScales, posOf, clampY, deviatesB, sqrtGtB, sqrtLtB,
      distSq, vadd, smul, vneg, cellSize, tolerance, faceDirections,
      scenBCells, scenBRest, str_ec, str_er, str_cc, str_cr, str_rc, str_rr, str_ee,
      List.foldl, List.find?, List.filterMap, List.flatMap, List.eraseP, List.filter]
  · norm_num [runFrame, MAX_ITERATIONS, range_five, relaxPass, bfsPhase, sweepPhase,
      bfsLoop, sweepInner, sweepOuter, visitOneConnection, verifyAndCorrect,
      correctCell, correctEdge, anchorCellsOf, buildConnections, connsFor, getConns,
      findCell, updateCell, updateScales, posOf, clampY, deviatesB, sqrtGtB, sqrtLtB,
      distSq, vadd, smul, vneg, cellSize, tolerance, faceDirections,
      scenBCells, scenBRest, str_ec, str_er, str_cc, str_cr, str_rc, str_rr, str_ee,
      List.foldl, List.find?, List.filterMap, List.flatMap, List.eraseP, List.filter]

/-- Witness for C2: the placement step applied at a concrete dequeued cell
and edge of Scenario B. -/
theorem c2_bfs_placement_witness :
    findCell scenBCells 0 = some ⟨0, "epithelial", ⟨0, 1/10, 0⟩, 1⟩ ∧
    findCell scenBCells 1 = some ⟨1, "cardiomyocyte", ⟨0, 1/10, 1/5⟩, 1⟩ ∧
    (1 : ℕ) ∉ ([0] : List ℕ) ∧
    ("cardiomyocyte" : String) ≠ "reference" ∧
    visitOneConnection 0 (scenBCells, [0], []) ⟨1, ⟨0, 0, 1⟩⟩ =
      (updateCell scenBCells 1
        (clampY (vadd (⟨0, 1/10, 0⟩ : Vec3)
          (smul (cellSize/2 * 1 + cellSize/2 * 1) ⟨0, 0, 1⟩))),
       [1, 0], [] ++ [1]) :=
  ⟨rfl, rfl, by decide, by decide,
    c2_bfs_placement.1 0 scenBCells [0] [] ⟨1, ⟨0, 0, 1⟩⟩
      ⟨0, "epithelial", ⟨0, 1/10, 0⟩, 1⟩ ⟨1, "cardiomyocyte", ⟨0, 1/10, 1/5⟩, 1⟩
      rfl rfl (by decide) (by decide)⟩

/-! ### C3: restore round-trip -/

/-- The identity-relevant part of a cell: uuid and type. -/
def shape2 (c : CellRec) : ℕ × String := (c.uuid, c.cellType)

lemma runFrame_shape2 (fc : List (ℕ × List Conn)) (rest : ℕ → Vec3) (osc : ℚ)
    (cells : List CellRec) :
    (runFrame fc rest osc cells).map shape2 = cells.map shape2 := by
  have h := runFrame_shapeS fc rest osc cells
  have e1 : (runFrame fc rest osc cells).map shape2 =
      ((runFrame fc rest osc cells).map shapeS).map fun t => (t.1, t.2.1) := by
    rw [List.map_map]
    exact List.map_congr_left fun c _ => rfl
  rw [e1, h, List.map_map]
  exact List.map_congr_left fun c _ => rfl

lemma framesFold_shape2 (fc : List (ℕ × List Conn)) (rest : ℕ → Vec3) :
    ∀ (oscs : List ℚ) (cells : List CellRec),
      ((oscs.foldl (fun cs o => runFrame fc rest o cs) cells)).map shape2 =
        cells.map shape2 := by
  intro oscs
  induction oscs with
  | nil => intro cells; rfl
  | cons o os ih =>
    intro cells
    rw [List.foldl_cons, ih, runFrame_shape2]

lemma relaxPass_nil (fc : List (ℕ × List Conn)) (rest : ℕ → Vec3) (it : ℕ) :
    relaxPass fc rest it [] = [] := by
  have h : anchorCellsOf rest [] = [] := by
    unfold anchorCellsOf
    simp
  unfold relaxPass bfsPhase sweepPhase bfsLoop verifyAndCorrect
  rw [h]
  rfl

lemma runFrame_nil (fc : List (ℕ × List Conn)) (rest : ℕ → Vec3) (osc : ℚ) :
    runFrame fc rest osc [] = [] := by
  unfold runFrame
  rw [show updateScales osc [] = [] from rfl, MAX_ITERATIONS, range_five]
  simp only [List.foldl_cons, List.foldl_nil, relaxPass_nil]

lemma framesFold_nil (fc : List (ℕ × List Conn)) (rest : ℕ → Vec3) :
    ∀ (oscs : List ℚ),
      (oscs.foldl (fun cs o => runFrame fc rest o cs) []) = [] := by
  intro oscs
  induction oscs with
  | nil => rfl
  | cons o os ih => rw [List.foldl_cons, runFrame_nil]; exact ih

lemma restore_map :
    ∀ (F L : List CellRec), F.map shape2 = L.map shape2 →
      (∀ c ∈ L, c.scl = 1) → (L.map CellRec.uuid).Nodup →
      F.map (restoreCell (L.map fun c => (c.uuid, c.pos))) = L := by
  intro F
  induction F with
  | nil =>
    intro L h _ _
    cases L with
    | nil => rfl
    | cons b t => simp at h
  | cons f ft ih =>
    intro L h hscl hnd
    cases L with
    | nil => simp at h
    | cons l lt =>
      simp only [List.map_cons, List.cons.injEq] at h
      obtain ⟨h1, h2⟩ := h
      have hu : f.uuid = l.uuid := congrArg Prod.fst h1
      have ht : f.cellType = l.cellType := congrArg Prod.snd h1
      rw [List.map_cons, List.map_cons]
      have hhead : restoreCell ((l.uuid, l.pos) :: lt.map fun c => (c.uuid, c.pos)) f = l := by
        unfold restoreCell
        rw [List.find?_cons_of_pos _ (by simpa using hu.symm)]
        obtain ⟨fu, fty, fp, fs⟩ := f
        obtain ⟨lu, lty, lp, ls⟩ := l
        simp only at hu ht
        have hs : ls = 1 := hscl _ (List.mem_cons_self _ _)
        simp [hu, ht, hs]
      rw [hhead]
      have hnotin : l.uuid ∉ lt.map CellRec.uuid := by
        simp only [List.map_cons, List.nodup_cons] at hnd
        exact hnd.1
      have htail : ft.map (restoreCell ((l.uuid, l.pos) :: lt.map fun c => (c.uuid, c.pos))) =
          ft.map (restoreCell (lt.map fun c => (c.uuid, c.pos))) := by
        refine List.map_congr_left fun c hc => ?_
        have hcu : c.uuid ∈ lt.map CellRec.uuid := by
          have : shape2 c ∈ lt.map shape2 := h2 ▸ List.mem_map_of_mem shape2 hc
          obtain ⟨c2, hc2, he⟩ := List.mem_map.mp this
          have : c2.uuid = c.uuid := congrArg Prod.fst he
          exact this ▸ List.mem_map_of_mem CellRec.uuid hc2
        have hne : ¬ (l.uuid = c.uuid) := fun he => hnotin (he ▸ hcu)
        unfold restoreCell
        rw [List.find?_cons_of_neg _ (by simpa using hne)]
      rw [htail]
      refine congrArg (l :: ·) ?_
      exact ih lt h2 (fun c hc => hscl c (List.mem_cons_of_mem _ hc))
        (by simp only [List.map_cons, List.nodup_cons] at hnd; exact hnd.2)

/-- C3: entering simulation from an idle state, running any number of
frames, and exiting restores every cell to the rest position captured in
the snapshot at entry with scale 1.0 — the whole application state returns
to exactly the pre-entry state. -/
theorem c3_restore_round_trip (fc : List (ℕ × List Conn)) (rest : ℕ → Vec3)
    (oscs : List ℚ) (s : AppState)
    (hsim : s.isSimulating = false) (hbase : s.baseVisible = true)
    (hwall : s.wallVisible = true) (hsnap : s.snapshot = [])
    (hnd : (s.cells.map CellRec.uuid).Nodup)
    (hscl : ∀ c ∈ s.cells, c.scl = 1) :
    exitSimulationMode (simFrames fc rest oscs (enterSimulationMode s)) = s := by
  obtain ⟨sim, base, wall, snap, cells⟩ := s
  simp only at hsim hbase hwall hsnap hnd hscl
  subst hsim hbase hwall hsnap
  by_cases hempty : cells.isEmpty
  · have hcells : cells = [] := List.isEmpty_iff.mp hempty
    subst hcells
    simp [enterSimulationMode, simFrames, exitSimulationMode, framesFold_nil]
  · have henter : enterSimulationMode (AppState.mk false true true [] cells) =
        AppState.mk true false false (cells.map fun c => (c.uuid, c.pos)) cells := by
      unfold enterSimulationMode
      rw [if_neg (by simp), if_neg hempty]
    have hres := restore_map
      (oscs.foldl (fun cs o => runFrame fc rest o cs) cells) cells
      (framesFold_shape2 fc rest oscs cells) hscl hnd
    rw [henter]
    unfold simFrames exitSimulationMode
    rw [if_pos rfl]
    simp only [AppState.mk.injEq, hres]

/-- Witness for C3: a concrete one-cell idle state survives an
enter–frame–exit cycle unchanged. -/
theorem c3_restore_round_trip_witness :
    ((AppState.mk false true true [] [⟨0, "epithelial", ⟨0, 1/10, 0⟩, 1⟩]).cells.map
      CellRec.uuid).Nodup ∧
    (∀ c ∈ (AppState.mk false true true [] [⟨0, "epithelial", ⟨0, 1/10, 0⟩, 1⟩]).cells,
      c.scl = 1) ∧
    exitSimulationMode (simFrames (buildConnections [⟨0, "epithelial", ⟨0, 1/10, 0⟩, 1⟩])
        (fun _ => ⟨0, 1/10, 0⟩) [1]
        (enterSimulationMode
          (AppState.mk false true true [] [⟨0, "epithelial", ⟨0, 1/10, 0⟩, 1⟩]))) =
      AppState.mk false true true [] [⟨0, "epithelial", ⟨0, 1/10, 0⟩, 1⟩] := by
  have hscl : ∀ c ∈ (AppState.mk false true true []
      [⟨0, "epithelial", ⟨0, 1/10, 0⟩, 1⟩]).cells, c.scl = 1 := by
    intro c hc
    simp only [List.mem_singleton] at hc
    rw [hc]
  exact ⟨by decide, hscl,
    c3_restore_round_trip (buildConnections [⟨0, "epithelial", ⟨0, 1/10, 0⟩, 1⟩])
      (fun _ => ⟨0, 1/10, 0⟩) [1]
      (AppState.mk false true true [] [⟨0, "epithelial", ⟨0, 1/10, 0⟩, 1⟩])
      rfl rfl rfl rfl (by decide) hscl⟩

/-! ### C9 and C10: mode-toggle behaviour -/

/-- C9: invoking simulation entry with an empty cell set refuses to start:
afterwards the mode is Idle, the base and wall are visible, no snapshot is
retained, and the cell list is untouched. -/
theorem c9_empty_entry_refused (s : AppState)
    (hcells : s.cells = []) (hsim : s.isSimulating = false) :
    (enterSimulationMode s).isSimulating = false ∧
    (enterSimulationMode s).baseVisible = true ∧
    (enterSimulationMode s).wallVisible = true ∧
    (enterSimulationMode s).snapshot = [] ∧
    (enterSimulationMode s).cells = s.cells := by
  simp [enterSimulationMode, hsim, hcells]

theorem c9_empty_entry_refused_witness :
    (AppState.mk false true true [] []).cells = [] ∧
    (AppState.mk false true true [] []).isSimulating = false ∧
    (enterSimulationMode (AppState.mk false true true [] [])).isSimulating = false ∧
    (enterSimulationMode (AppState.mk false true true [] [])).cells = [] :=
  ⟨rfl, rfl, (c9_empty_entry_refused _ rfl rfl).1,
    (c9_empty_entry_refused _ rfl rfl).2.2.2.2⟩

/-- C10: entering while already simulating and exiting while idle are both
immediate no-ops on the whole application state. -/
theorem c10_redundant_toggle_noop (s t : AppState)
    (hs : s.isSimulating = true) (ht : t.isSimulating = false) :
    enterSimulationMode s = s ∧ exitSimulationMode t = t := by
  constructor
  · simp [enterSimulationMode, hs]
  · simp [exitSimulationMode, ht]

theorem c10_redundant_toggle_noop_witness :
    enterSimulationMode (AppState.mk true false false [] []) =
      AppState.mk true false false [] [] ∧
    exitSimulationMode (AppState.mk false true true [] []) =
      AppState.mk false true true [] [] :=
  c10_redundant_toggle_noop _ _ rfl rfl

/-! ### C7: adjacency symmetry and the recording condition -/

/-- C7: in the adjacency map built at simulation entry, an edge A→B with
direction d exists iff the edge B→A with direction −d exists; and an edge
A→B with direction d is recorded iff B is a distinct cell whose entry
position is within tolerance 0.01 of A plus d times the cube size (the
distance test encoded as a squared comparison). -/
theorem c7_adjacency_symmetry (cells : List CellRec) (a b : CellRec) (d : Vec3)
    (hnd : (cells.map CellRec.uuid).Nodup) (ha : a ∈ cells) (hb : b ∈ cells) :
    ((Conn.mk b.uuid d ∈ getConns (buildConnections cells) a.uuid) ↔
      (Conn.mk a.uuid (vneg d) ∈ getConns (buildConnections cells) b.uuid)) ∧
    ((Conn.mk b.uuid d ∈ getConns (buildConnections cells) a.uuid) ↔
      (a.uuid ≠ b.uuid ∧ d ∈ faceDirections ∧
        distSq (vadd a.pos (smul cellSize d)) b.pos < tolerance^2)) := by
  have hchar : ∀ (x y : CellRec) (e : Vec3), x ∈ cells → y ∈ cells →
      ((Conn.mk y.uuid e ∈ getConns (buildConnections cells) x.uuid) ↔
        (x.uuid ≠ y.uuid ∧ e ∈ faceDirections ∧
          distSq (vadd x.pos (smul cellSize e)) y.pos < tolerance^2)) := by
    intro x y e hx hy
    rw [getConns_build hnd hx, mem_connsFor_iff hnd hy]
  refine ⟨?_, hchar a b d ha hb⟩
  rw [hchar a b d ha hb, hchar b a (vneg d) hb ha]
  constructor
  · rintro ⟨hne, hd, hlt⟩
    exact ⟨fun h => hne h.symm, vneg_mem_faceDirections hd, by rw [distSq_vneg_symm]; exact hlt⟩
  · rintro ⟨hne, hd, hlt⟩
    have hd' : d ∈ faceDirections := by
      have := vneg_mem_faceDirections hd
      rwa [vneg_vneg] at this
    refine ⟨fun h => hne h.symm, hd', ?_⟩
    rwa [distSq_vneg_symm] at hlt

/-- Witness for C7 at a concrete two-cell structure. -/
theorem c7_adjacency_symmetry_witness :
    (([⟨0, "epithelial", ⟨0, 1/10, 0⟩, 1⟩,
       ⟨1, "cardiomyocyte", ⟨0, 1/10, 1/5⟩, 1⟩] :
        List CellRec).map CellRec.uuid).Nodup ∧
    ((Conn.mk 1 ⟨0,0,1⟩ ∈
        getConns (buildConnections
          [⟨0, "epithelial", ⟨0, 1/10, 0⟩, 1⟩,
           ⟨1, "cardiomyocyte", ⟨0, 1/10, 1/5⟩, 1⟩]) 0) ↔
      (Conn.mk 0 (vneg ⟨0,0,1⟩) ∈
        getConns (buildConnections
          [⟨0, "epithelial", ⟨0, 1/10, 0⟩, 1⟩,
           ⟨1, "cardiomyocyte", ⟨0, 1/10, 1/5⟩, 1⟩]) 1)) := by
  refine ⟨by decide, ?_⟩
  exact (c7_adjacency_symmetry
    [⟨0, "epithelial", ⟨0, 1/10, 0⟩, 1⟩, ⟨1, "cardiomyocyte", ⟨0, 1/10, 1/5⟩, 1⟩]
    ⟨0, "epithelial", ⟨0, 1/10, 0⟩, 1⟩ ⟨1, "cardiomyocyte", ⟨0, 1/10, 1/5⟩, 1⟩
    ⟨0,0,1⟩ (by decide) (List.mem_cons_self _ _)
    (List.mem_cons_of_mem _ (List.mem_cons_self _ _))).1

end Xenobot
